import Mathlib

/-!
Shallow embedding of MVLevelDB's internal-key format, comparator and
write-batch code (src/db/dbformat.cc).  A byte string is a `List Nat`
whose elements are byte values.  The fixed-width and varint codecs live
in util/coding.{h,cc}, which is outside the given source tree; they are
modelled from the contracts stated in the specification (little-endian
fixed32/fixed64, varint32, length-prefixed slices).
-/

namespace LevelDB

/-- Value tag for deletions: kTypeDeletion = 0x0. -/
def kTypeDeletion : Nat := 0

/-- Value tag for stored values: kTypeValue = 0x1. -/
def kTypeValue : Nat := 1

/-- kValueTypeForSeek = kTypeValue (dbformat.h, per spec). -/
def kValueTypeForSeek : Nat := kTypeValue

/-- Modelled from the spec: kMaxSequenceNumber = 2^56 - 1 (dbformat.h is
not part of the source tree; the spec fixes the value). -/
def kMaxSequenceNumber : Nat := 2 ^ 56 - 1

/-- Modelled from the spec: kMinValidTime = 0. -/
def kMinValidTime : Nat := 0

/-- PackSequenceAndType from dbformat.cc: `(seq << 8) | t`. -/
def PackSequenceAndType (seq t : Nat) : Nat := (seq <<< 8) ||| t

/-- Modelled from the spec: EncodeFixed64 (util/coding) stores the eight
little-endian bytes of a 64-bit value. -/
def EncodeFixed64 (v : Nat) : List Nat :=
  [v % 256, v / 256 % 256, v / 256 ^ 2 % 256, v / 256 ^ 3 % 256,
   v / 256 ^ 4 % 256, v / 256 ^ 5 % 256, v / 256 ^ 6 % 256, v / 256 ^ 7 % 256]

/-- Modelled from the spec: DecodeFixed64 (util/coding) reads eight
little-endian bytes. -/
def DecodeFixed64 (l : List Nat) : Nat :=
  l.getD 0 0 + 256 * (l.getD 1 0 + 256 * (l.getD 2 0 + 256 * (l.getD 3 0 +
    256 * (l.getD 4 0 + 256 * (l.getD 5 0 + 256 * (l.getD 6 0 + 256 * l.getD 7 0))))))

/-- Modelled from the spec: EncodeFixed32 (util/coding), four
little-endian bytes. -/
def EncodeFixed32 (v : Nat) : List Nat :=
  [v % 256, v / 256 % 256, v / 256 ^ 2 % 256, v / 256 ^ 3 % 256]

/-- Modelled from the spec: DecodeFixed32 (util/coding), four
little-endian bytes. -/
def DecodeFixed32 (l : List Nat) : Nat :=
  l.getD 0 0 + 256 * (l.getD 1 0 + 256 * (l.getD 2 0 + 256 * l.getD 3 0))

/-- Modelled from the spec: EncodeVarint32 (util/coding).  The unrolled
cases mirror the reference encoder for 32-bit values (each emitted byte
is the low seven bits with the continuation bit, bar the last). -/
def EncodeVarint32 (v : Nat) : List Nat :=
  if v < 2 ^ 7 then [v]
  else if v < 2 ^ 14 then [v % 128 + 128, v / 128]
  else if v < 2 ^ 21 then [v % 128 + 128, v / 128 % 128 + 128, v / 128 ^ 2]
  else if v < 2 ^ 28 then
    [v % 128 + 128, v / 128 % 128 + 128, v / 128 ^ 2 % 128 + 128, v / 128 ^ 3]
  else
    [v % 128 + 128, v / 128 % 128 + 128, v / 128 ^ 2 % 128 + 128,
     v / 128 ^ 3 % 128 + 128, v / 128 ^ 4]

/-- Modelled from the spec: the varint32 parsing loop of GetVarint32
(util/coding): up to five bytes, seven payload bits each, the high bit
marking continuation. -/
def GetVarint32Loop : List Nat → Nat → Nat → Option (Nat × List Nat)
  | [], _, _ => none
  | b :: rest, shift, result =>
    if 28 < shift then none
    else if 128 ≤ b then GetVarint32Loop rest (shift + 7) (result + b % 128 * 2 ^ shift)
    else some (result + b * 2 ^ shift, rest)

/-- Modelled from the spec: GetVarint32 (util/coding). -/
def GetVarint32 (input : List Nat) : Option (Nat × List Nat) :=
  GetVarint32Loop input 0 0

/-- Modelled from the spec: GetLengthPrefixedSlice (util/coding): a
varint32 length followed by that many bytes; fails when the length runs
past the end of the buffer. -/
def GetLengthPrefixedSlice (input : List Nat) : Option (List Nat × List Nat) :=
  match GetVarint32 input with
  | some (len, rest) =>
      if len ≤ rest.length then some (rest.take len, rest.drop len) else none
  | none => none

/-- Modelled from the spec: GetFixed64 (util/coding): reads eight bytes,
fails on a shorter buffer. -/
def GetFixed64 (input : List Nat) : Option (Nat × List Nat) :=
  if 8 ≤ input.length then some (DecodeFixed64 input, input.drop 8) else none

/-- Modelled from the spec: PutLengthPrefixedSlice (util/coding). -/
def PutLengthPrefixedSlice (s : List Nat) : List Nat :=
  EncodeVarint32 s.length ++ s

/-- Modelled from the spec: ExtractUserKey (dbformat.h): the prefix of an
internal key with the last 8 bytes removed. -/
def ExtractUserKey (k : List Nat) : List Nat := k.take (k.length - 8)

/-- Modelled from the spec: MVExtractUserKey (dbformat.h): the prefix of
an MV internal key with the last 16 bytes removed. -/
def MVExtractUserKey (k : List Nat) : List Nat := k.take (k.length - 16)

/-- AppendInternalKey from dbformat.cc. -/
def AppendInternalKey (result user_key : List Nat) (sequence typ : Nat) : List Nat :=
  result ++ user_key ++ EncodeFixed64 (PackSequenceAndType sequence typ)

/-- AppendMVInternalKey from dbformat.cc. -/
def AppendMVInternalKey (result user_key : List Nat) (sequence typ valid_time : Nat) :
    List Nat :=
  result ++ user_key ++ EncodeFixed64 (PackSequenceAndType sequence typ) ++
    EncodeFixed64 valid_time

-- ### basic lemmas about the codecs

theorem encodeFixed64_length (v : Nat) : (EncodeFixed64 v).length = 8 := by
  simp [EncodeFixed64]

theorem encodeFixed32_length (v : Nat) : (EncodeFixed32 v).length = 4 := by
  simp [EncodeFixed32]

theorem decodeFixed64_encode (v : Nat) (rest : List Nat) :
    DecodeFixed64 (EncodeFixed64 v ++ rest) = v % 2 ^ 64 := by
  simp only [EncodeFixed64, DecodeFixed64, List.cons_append, List.nil_append,
    List.getD_cons_zero, List.getD_cons_succ]
  omega

theorem decodeFixed32_encode (v : Nat) (rest : List Nat) :
    DecodeFixed32 (EncodeFixed32 v ++ rest) = v % 2 ^ 32 := by
  simp only [EncodeFixed32, DecodeFixed32, List.cons_append, List.nil_append,
    List.getD_cons_zero, List.getD_cons_succ]
  omega

theorem lor_mul_two_pow_eq_add {a b n : Nat} (hb : b < 2 ^ n) :
    (a * 2 ^ n) ||| b = a * 2 ^ n + b := by
  induction n generalizing a b with
  | zero =>
    interval_cases b
    simp
  | succ n ih =>
    have hb2 : b / 2 < 2 ^ n := by
      have : (2 : Nat) ^ (n + 1) = 2 * 2 ^ n := by ring
      omega
    have key : a * 2 ^ (n + 1) = Nat.bit false (a * 2 ^ n) := by
      rw [Nat.bit_val]
      simp
      ring
    have keyb : b = Nat.bit (decide (b % 2 = 1)) (b / 2) := by
      rw [Nat.bit_val]
      rcases Nat.mod_two_eq_zero_or_one b with h | h <;> simp [h] <;> omega
    calc a * 2 ^ (n + 1) ||| b
        = Nat.bit false (a * 2 ^ n) ||| Nat.bit (decide (b % 2 = 1)) (b / 2) := by
          rw [← key, ← keyb]
      _ = Nat.bit (false || decide (b % 2 = 1)) ((a * 2 ^ n) ||| (b / 2)) := by
          rw [Nat.lor_bit]
      _ = Nat.bit (decide (b % 2 = 1)) (a * 2 ^ n + b / 2) := by
          rw [ih hb2, Bool.false_or]
      _ = a * 2 ^ (n + 1) + b := by
          rw [Nat.bit_val, pow_succ]
          have h3 : a * (2 ^ n * 2) = 2 * (a * 2 ^ n) := by ring
          rw [h3]
          rcases Nat.mod_two_eq_zero_or_one b with h | h <;> simp [h] <;> omega

/-- PackSequenceAndType in arithmetic form: for a tag below 256 the
bitwise-or is plain addition. -/
theorem pack_eq_arith (seq t : Nat) (ht : t < 256) :
    PackSequenceAndType seq t = seq * 256 + t := by
  have : (256 : Nat) = 2 ^ 8 := by norm_num
  rw [PackSequenceAndType, Nat.shiftLeft_eq, this, lor_mul_two_pow_eq_add (by omega)]

theorem pack_lt (seq t : Nat) (hs : seq ≤ kMaxSequenceNumber) (ht : t ≤ kValueTypeForSeek) :
    PackSequenceAndType seq t < 2 ^ 64 := by
  rw [pack_eq_arith seq t (by simp [kValueTypeForSeek, kTypeValue] at ht; omega)]
  simp [kMaxSequenceNumber] at hs
  simp [kValueTypeForSeek, kTypeValue] at ht
  omega

theorem pack_strict_mono (sa sb ta tb : Nat) (hta : ta ≤ kValueTypeForSeek)
    (htb : tb ≤ kValueTypeForSeek) (h : sb < sa) :
    PackSequenceAndType sb tb < PackSequenceAndType sa ta := by
  simp [kValueTypeForSeek, kTypeValue] at hta htb
  rw [pack_eq_arith sa ta (by omega), pack_eq_arith sb tb (by omega)]
  omega

-- ### the comparator adapter

/-- The user-supplied comparator: compare, FindShortestSeparator and
FindShortSuccessor (leveldb::Comparator, consumed interface). -/
structure UserComparator where
  cmp : List Nat → List Nat → Int
  shortestSep : List Nat → List Nat → List Nat
  shortSucc : List Nat → List Nat

/-- InternalKeyComparator::Compare from dbformat.cc: by user key first;
on equality by the 8-byte tail at distance `s` from the end, descending;
in MV mode, when the left tail is smaller, the last 8 bytes (valid time)
break the tie, descending, with +1 when they are equal too. -/
def InternalCompare (mv : Bool) (uc : UserComparator) (akey bkey : List Nat) : Int :=
  let s : Nat := if mv then 16 else 8
  let r : Int :=
    if mv then uc.cmp (MVExtractUserKey akey) (MVExtractUserKey bkey)
    else uc.cmp (ExtractUserKey akey) (ExtractUserKey bkey)
  if r = 0 then
    let anum := DecodeFixed64 (akey.drop (akey.length - s))
    let bnum := DecodeFixed64 (bkey.drop (bkey.length - s))
    if anum > bnum then -1
    else if anum < bnum then
      if mv then
        let avt := DecodeFixed64 (akey.drop (akey.length - 8))
        let bvt := DecodeFixed64 (bkey.drop (bkey.length - 8))
        if avt > bvt then -1 else 1
      else 1
    else 0
  else r

/-- InternalKeyComparator::FindShortestSeparator from dbformat.cc,
returning the new value of `start`. -/
def FindShortestSeparator (mv : Bool) (uc : UserComparator) (start limit : List Nat) :
    List Nat :=
  let user_start := if mv then MVExtractUserKey start else ExtractUserKey start
  let user_limit := if mv then MVExtractUserKey limit else ExtractUserKey limit
  let tmp := uc.shortestSep user_start user_limit
  if tmp.length < user_start.length ∧ uc.cmp user_start tmp < 0 then
    tmp ++ EncodeFixed64 (PackSequenceAndType kMaxSequenceNumber kValueTypeForSeek) ++
      (if mv then EncodeFixed64 kMinValidTime else [])
  else start

/-- InternalKeyComparator::FindShortSuccessor from dbformat.cc, returning
the new value of `key`.  Note: the source extracts the user key with
ExtractUserKey (strip 8 bytes) regardless of the multi_version flag. -/
def FindShortSuccessor (mv : Bool) (uc : UserComparator) (key : List Nat) : List Nat :=
  let user_key := ExtractUserKey key
  let tmp := uc.shortSucc user_key
  if tmp.length < user_key.length ∧ uc.cmp user_key tmp < 0 then
    tmp ++ EncodeFixed64 (PackSequenceAndType kMaxSequenceNumber kValueTypeForSeek) ++
      (if mv then EncodeFixed64 kMinValidTime else [])
  else key

/-- Modelled from the spec: FindShortSuccessor as the specification
describes it, extracting the user key with the mode's trailer width
(MVExtractUserKey in MV mode). -/
def FindShortSuccessorSpec (mv : Bool) (uc : UserComparator) (key : List Nat) : List Nat :=
  let user_key := if mv then MVExtractUserKey key else ExtractUserKey key
  let tmp := uc.shortSucc user_key
  if tmp.length < user_key.length ∧ uc.cmp user_key tmp < 0 then
    tmp ++ EncodeFixed64 (PackSequenceAndType kMaxSequenceNumber kValueTypeForSeek) ++
      (if mv then EncodeFixed64 kMinValidTime else [])
  else key

/-- Lexicographic byte comparison (the default bytewise user comparator). -/
def bytewiseCmp : List Nat → List Nat → Int
  | [], [] => 0
  | [], _ :: _ => -1
  | _ :: _, [] => 1
  | a :: as, b :: bs => if a < b then -1 else if b < a then 1 else bytewiseCmp as bs

/-- The bytewise comparator's FindShortSuccessor: increment the first
byte that is not 0xff and truncate there; all-0xff keys are unchanged. -/
def bytewiseShortSucc : List Nat → List Nat
  | [] => []
  | b :: rest => if b ≠ 255 then [b + 1] else 255 :: bytewiseShortSucc rest

/-- A bytewise user comparator used for concrete key computations (its
separator shortening is not exercised and is taken as the identity). -/
def bytewiseUC : UserComparator :=
  { cmp := bytewiseCmp, shortestSep := fun a _ => a, shortSucc := bytewiseShortSucc }

/-- A degenerate user comparator (everything equal, nothing shortened),
used to instantiate comparator-contract hypotheses concretely. -/
def constUC : UserComparator :=
  { cmp := fun _ _ => 0, shortestSep := fun a _ => a, shortSucc := fun k => k }

-- ### helper lemmas about extraction and tails

theorem extract_append_eight (u t : List Nat) (ht : t.length = 8) :
    ExtractUserKey (u ++ t) = u := by
  simp [ExtractUserKey, List.length_append, ht]

theorem mvextract_append_sixteen (u t : List Nat) (ht : t.length = 16) :
    MVExtractUserKey (u ++ t) = u := by
  simp [MVExtractUserKey, List.length_append, ht]

theorem drop_tail_append (u t : List Nat) (ht : t.length = 8) :
    (u ++ t).drop ((u ++ t).length - 8) = t := by
  have h : (u ++ t).length - 8 = u.length := by
    simp [List.length_append, ht]
  rw [h, List.drop_left]

theorem drop_tail_append_sixteen (u t : List Nat) (ht : t.length = 16) :
    (u ++ t).drop ((u ++ t).length - 16) = t := by
  have h : (u ++ t).length - 16 = u.length := by
    simp [List.length_append, ht]
  rw [h, List.drop_left]

theorem decodeFixed64_encode_self (v : Nat) : DecodeFixed64 (EncodeFixed64 v) = v % 2 ^ 64 := by
  have h := decodeFixed64_encode v []
  simpa using h

/-- Evaluation of InternalCompare on well-formed SV internal keys. -/
theorem internalCompare_sv (uc : UserComparator) (ua ub : List Nat) (na nb : Nat)
    (hna : na < 2 ^ 64) (hnb : nb < 2 ^ 64) :
    InternalCompare false uc (ua ++ EncodeFixed64 na) (ub ++ EncodeFixed64 nb) =
      if uc.cmp ua ub = 0 then
        (if nb < na then -1 else if na < nb then 1 else 0)
      else uc.cmp ua ub := by
  simp only [InternalCompare, Bool.false_eq_true, if_false]
  rw [extract_append_eight ua _ (encodeFixed64_length na),
    extract_append_eight ub _ (encodeFixed64_length nb),
    drop_tail_append ua _ (encodeFixed64_length na),
    drop_tail_append ub _ (encodeFixed64_length nb),
    decodeFixed64_encode_self, decodeFixed64_encode_self,
    Nat.mod_eq_of_lt hna, Nat.mod_eq_of_lt hnb]

/-- Evaluation of InternalCompare on well-formed MV internal keys. -/
theorem internalCompare_mv (uc : UserComparator) (ua ub : List Nat) (na nb va vb : Nat)
    (hna : na < 2 ^ 64) (hnb : nb < 2 ^ 64) :
    InternalCompare true uc (ua ++ EncodeFixed64 na ++ EncodeFixed64 va)
      (ub ++ EncodeFixed64 nb ++ EncodeFixed64 vb) =
      if uc.cmp ua ub = 0 then
        (if nb < na then -1
         else if na < nb then (if vb % 2 ^ 64 < va % 2 ^ 64 then -1 else 1)
         else 0)
      else uc.cmp ua ub := by
  have hx : ua ++ EncodeFixed64 na ++ EncodeFixed64 va =
      ua ++ (EncodeFixed64 na ++ EncodeFixed64 va) := by
    rw [List.append_assoc]
  have hy : ub ++ EncodeFixed64 nb ++ EncodeFixed64 vb =
      ub ++ (EncodeFixed64 nb ++ EncodeFixed64 vb) := by
    rw [List.append_assoc]
  have hlen16a : (EncodeFixed64 na ++ EncodeFixed64 va).length = 16 := by
    simp [List.length_append, encodeFixed64_length]
  have hlen16b : (EncodeFixed64 nb ++ EncodeFixed64 vb).length = 16 := by
    simp [List.length_append, encodeFixed64_length]
  simp only [InternalCompare, if_true]
  rw [hx, hy, mvextract_append_sixteen ua _ hlen16a, mvextract_append_sixteen ub _ hlen16b,
    drop_tail_append_sixteen ua _ hlen16a, drop_tail_append_sixteen ub _ hlen16b,
    decodeFixed64_encode, decodeFixed64_encode,
    Nat.mod_eq_of_lt hna, Nat.mod_eq_of_lt hnb]
  rw [← hx, ← hy,
    drop_tail_append (ua ++ EncodeFixed64 na) _ (encodeFixed64_length va),
    drop_tail_append (ub ++ EncodeFixed64 nb) _ (encodeFixed64_length vb),
    decodeFixed64_encode_self, decodeFixed64_encode_self]

/-- C4: with equal user keys (under the user comparator), a strictly
larger sequence number makes an internal key sort strictly earlier, in
both SV and MV mode, for any tags in {kTypeDeletion, kTypeValue}. -/
theorem internalCompare_newer_seq_first (mv : Bool) (uc : UserComparator)
    (ua ub : List Nat) (sa sb ta tb va vb : Nat)
    (hsa : sa ≤ kMaxSequenceNumber) (hsb : sb ≤ kMaxSequenceNumber)
    (hta : ta ≤ kValueTypeForSeek) (htb : tb ≤ kValueTypeForSeek)
    (hseq : sb < sa) (hu : uc.cmp ua ub = 0) :
    InternalCompare mv uc
      (if mv then AppendMVInternalKey [] ua sa ta va else AppendInternalKey [] ua sa ta)
      (if mv then AppendMVInternalKey [] ub sb tb vb else AppendInternalKey [] ub sb tb)
      < 0 := by
  have hpa := pack_lt sa ta hsa hta
  have hpb := pack_lt sb tb hsb htb
  have hmono := pack_strict_mono sa sb ta tb hta htb hseq
  cases mv
  · simp only [Bool.false_eq_true, if_false, AppendInternalKey, List.nil_append]
    rw [internalCompare_sv uc ua ub _ _ hpa hpb, hu]
    simp [hmono]
  · simp only [if_true, AppendMVInternalKey, List.nil_append]
    rw [internalCompare_mv uc ua ub _ _ va vb hpa hpb, hu]
    simp [hmono]

/-- Witness for C4 at a concrete MV input. -/
theorem internalCompare_newer_seq_first_witness :
    InternalCompare true bytewiseUC (AppendMVInternalKey [] [107] 9 1 4)
      (AppendMVInternalKey [] [107] 8 1 7) < 0 := by
  have h := internalCompare_newer_seq_first true bytewiseUC [107] [107] 9 8 1 1 4 7
    (by decide) (by decide) (by decide) (by decide) (by decide) (by decide)
  simpa using h

/-- C1 fails on the code: two MV internal keys with equal user key,
identical packed (sequence, tag) tails and different valid times compare
as 0; the valid-time descending tie-break never fires on tail equality. -/
theorem mvEqualTail_vt_ignored_cex :
    bytewiseUC.cmp (MVExtractUserKey ([107] ++ EncodeFixed64 1281 ++ EncodeFixed64 9))
        (MVExtractUserKey ([107] ++ EncodeFixed64 1281 ++ EncodeFixed64 3)) = 0 ∧
    DecodeFixed64 (([107] ++ EncodeFixed64 1281 ++ EncodeFixed64 9).drop
        (([107] ++ EncodeFixed64 1281 ++ EncodeFixed64 9).length - 16)) =
      DecodeFixed64 (([107] ++ EncodeFixed64 1281 ++ EncodeFixed64 3).drop
        (([107] ++ EncodeFixed64 1281 ++ EncodeFixed64 3).length - 16)) ∧
    DecodeFixed64 (([107] ++ EncodeFixed64 1281 ++ EncodeFixed64 3).drop
        (([107] ++ EncodeFixed64 1281 ++ EncodeFixed64 3).length - 8)) <
      DecodeFixed64 (([107] ++ EncodeFixed64 1281 ++ EncodeFixed64 9).drop
        (([107] ++ EncodeFixed64 1281 ++ EncodeFixed64 9).length - 8)) ∧
    ¬ InternalCompare true bytewiseUC ([107] ++ EncodeFixed64 1281 ++ EncodeFixed64 9)
        ([107] ++ EncodeFixed64 1281 ++ EncodeFixed64 3) < 0 := by
  refine ⟨by decide, by decide, by decide, by decide⟩

/-- C1 (amended): for equal user keys the comparator returns 0 whenever
the packed (sequence, tag) tails are equal, regardless of valid times;
the valid-time descending tie-break applies only when the left tail is
smaller, in which case a larger left valid time yields a negative
comparison. -/
theorem mvValidTime_tiebreak_amended (uc : UserComparator) (ua ub : List Nat)
    (na nb va vb : Nat) (hna : na < 2 ^ 64) (hnb : nb < 2 ^ 64)
    (hva : va < 2 ^ 64) (hvb : vb < 2 ^ 64) (hu : uc.cmp ua ub = 0) :
    (na = nb → InternalCompare true uc (ua ++ EncodeFixed64 na ++ EncodeFixed64 va)
        (ub ++ EncodeFixed64 nb ++ EncodeFixed64 vb) = 0) ∧
    (na < nb → vb < va → InternalCompare true uc (ua ++ EncodeFixed64 na ++ EncodeFixed64 va)
        (ub ++ EncodeFixed64 nb ++ EncodeFixed64 vb) < 0) := by
  rw [internalCompare_mv uc ua ub na nb va vb hna hnb, hu]
  constructor
  · intro h
    simp [h]
  · intro h hv
    have hmod : vb % 2 ^ 64 < va % 2 ^ 64 := by
      rw [Nat.mod_eq_of_lt hva, Nat.mod_eq_of_lt hvb]
      exact hv
    rw [if_neg (Nat.lt_asymm h), if_pos h, if_pos hmod]
    norm_num

/-- Witness for the amended C1 at a concrete input. -/
theorem mvValidTime_tiebreak_amended_witness :
    InternalCompare true bytewiseUC ([107] ++ EncodeFixed64 1281 ++ EncodeFixed64 9)
      ([107] ++ EncodeFixed64 1300 ++ EncodeFixed64 3) < 0 :=
  (mvValidTime_tiebreak_amended bytewiseUC [107] [107] 1281 1300 9 3
    (by decide) (by decide) (by decide) (by decide) (by decide)).2 (by decide) (by decide)

/-- C9: in MV mode the comparator is not antisymmetric; two keys with
equal user keys can both compare strictly below one another (smaller
packed tail on the left with larger valid time). -/
theorem mvCompare_not_antisymmetric :
    ∃ a b : List Nat,
      bytewiseUC.cmp (MVExtractUserKey a) (MVExtractUserKey b) = 0 ∧
      InternalCompare true bytewiseUC a b < 0 ∧
      InternalCompare true bytewiseUC b a < 0 :=
  ⟨[107] ++ EncodeFixed64 257 ++ EncodeFixed64 9,
   [107] ++ EncodeFixed64 513 ++ EncodeFixed64 3,
   by decide, by decide, by decide⟩

/-- InternalCompare of a key with itself is 0 when the user comparator
is reflexive. -/
theorem internalCompare_self (mv : Bool) (uc : UserComparator) (k : List Nat)
    (hrefl : ∀ u, uc.cmp u u = 0) : InternalCompare mv uc k k = 0 := by
  cases mv <;> simp [InternalCompare, hrefl]

/-- C5: the separator sandwich.  Assuming the user comparator is
reflexive and its shortening, when it shortens, lies strictly between
its arguments, FindShortestSeparator either leaves `start` unchanged or
rebuilds it from the shortened user key with the earliest-possible
trailer; in both cases the result is weakly above the old `start` and
strictly below `limit` in the internal order. -/
theorem findShortestSeparator_sandwich (mv : Bool) (uc : UserComparator)
    (start limit : List Nat)
    (hrefl : ∀ u, uc.cmp u u = 0)
    (hsep : ∀ a b, (uc.shortestSep a b).length < a.length →
        uc.cmp a (uc.shortestSep a b) < 0 ∧ uc.cmp (uc.shortestSep a b) b < 0)
    (hlt : InternalCompare mv uc start limit < 0) :
    (FindShortestSeparator mv uc start limit = start ∨
      FindShortestSeparator mv uc start limit =
        uc.shortestSep (if mv then MVExtractUserKey start else ExtractUserKey start)
            (if mv then MVExtractUserKey limit else ExtractUserKey limit) ++
          EncodeFixed64 (PackSequenceAndType kMaxSequenceNumber kValueTypeForSeek) ++
          (if mv then EncodeFixed64 kMinValidTime else [])) ∧
    InternalCompare mv uc start (FindShortestSeparator mv uc start limit) ≤ 0 ∧
    InternalCompare mv uc (FindShortestSeparator mv uc start limit) limit < 0 := by
  cases mv
  · by_cases hg : (uc.shortestSep (ExtractUserKey start) (ExtractUserKey limit)).length <
        (ExtractUserKey start).length ∧
        uc.cmp (ExtractUserKey start) (uc.shortestSep (ExtractUserKey start)
          (ExtractUserKey limit)) < 0
    · have hres : FindShortestSeparator false uc start limit =
          uc.shortestSep (ExtractUserKey start) (ExtractUserKey limit) ++
            EncodeFixed64 (PackSequenceAndType kMaxSequenceNumber kValueTypeForSeek) ++ [] := by
        simp only [FindShortestSeparator, Bool.false_eq_true, if_false]
        rw [if_pos hg]
      have hext : ExtractUserKey (uc.shortestSep (ExtractUserKey start) (ExtractUserKey limit) ++
          EncodeFixed64 (PackSequenceAndType kMaxSequenceNumber kValueTypeForSeek) ++ []) =
          uc.shortestSep (ExtractUserKey start) (ExtractUserKey limit) := by
        rw [List.append_nil]
        exact extract_append_eight _ _ (encodeFixed64_length _)
      have h2 := hsep (ExtractUserKey start) (ExtractUserKey limit) hg.1
      refine ⟨Or.inr hres, ?_, ?_⟩
      · rw [hres]
        simp only [InternalCompare, Bool.false_eq_true, if_false]
        rw [hext, if_neg (by omega)]
        omega
      · rw [hres]
        simp only [InternalCompare, Bool.false_eq_true, if_false]
        rw [hext, if_neg (by omega)]
        omega
    · have hres : FindShortestSeparator false uc start limit = start := by
        simp only [FindShortestSeparator, Bool.false_eq_true, if_false]
        rw [if_neg hg]
      rw [hres]
      exact ⟨Or.inl rfl, by rw [internalCompare_self false uc start hrefl], hlt⟩
  · by_cases hg : (uc.shortestSep (MVExtractUserKey start) (MVExtractUserKey limit)).length <
        (MVExtractUserKey start).length ∧
        uc.cmp (MVExtractUserKey start) (uc.shortestSep (MVExtractUserKey start)
          (MVExtractUserKey limit)) < 0
    · have hres : FindShortestSeparator true uc start limit =
          uc.shortestSep (MVExtractUserKey start) (MVExtractUserKey limit) ++
            EncodeFixed64 (PackSequenceAndType kMaxSequenceNumber kValueTypeForSeek) ++
            EncodeFixed64 kMinValidTime := by
        simp only [FindShortestSeparator, if_true]
        rw [if_pos hg]
      have hext : MVExtractUserKey (uc.shortestSep (MVExtractUserKey start)
          (MVExtractUserKey limit) ++
          EncodeFixed64 (PackSequenceAndType kMaxSequenceNumber kValueTypeForSeek) ++
          EncodeFixed64 kMinValidTime) =
          uc.shortestSep (MVExtractUserKey start) (MVExtractUserKey limit) := by
        rw [List.append_assoc]
        exact mvextract_append_sixteen _ _ (by simp [List.length_append, encodeFixed64_length])
      have h2 := hsep (MVExtractUserKey start) (MVExtractUserKey limit) hg.1
      refine ⟨Or.inr hres, ?_, ?_⟩
      · rw [hres]
        simp only [InternalCompare, if_true]
        rw [hext, if_neg (by omega)]
        omega
      · rw [hres]
        simp only [InternalCompare, if_true]
        rw [hext, if_neg (by omega)]
        omega
    · have hres : FindShortestSeparator true uc start limit = start := by
        simp only [FindShortestSeparator, if_true]
        rw [if_neg hg]
      rw [hres]
      exact ⟨Or.inl rfl, by rw [internalCompare_self true uc start hrefl], hlt⟩

/-- Witness for C5 at a concrete input (degenerate comparator, SV mode). -/
theorem findShortestSeparator_sandwich_witness :
    InternalCompare false constUC (EncodeFixed64 500) (EncodeFixed64 3) < 0 ∧
    InternalCompare false constUC (EncodeFixed64 500)
      (FindShortestSeparator false constUC (EncodeFixed64 500) (EncodeFixed64 3)) ≤ 0 ∧
    InternalCompare false constUC
      (FindShortestSeparator false constUC (EncodeFixed64 500) (EncodeFixed64 3))
      (EncodeFixed64 3) < 0 := by
  have h := findShortestSeparator_sandwich false constUC (EncodeFixed64 500) (EncodeFixed64 3)
    (fun u => rfl)
    (fun a b hlen => absurd hlen (Nat.lt_irrefl a.length))
    (by decide)
  exact ⟨by decide, h.2.1, h.2.2⟩

/-- C6 is a code bug: in MV mode FindShortSuccessor extracts the user
key with the single-version ExtractUserKey (stripping 8 bytes), not the
16-byte MV trailer the spec prescribes.  At the concrete MV key
0xff ‖ pack(5, kTypeValue) ‖ vt=3 with the bytewise comparator, the code
rewrites the key using a "successor" computed from the 9-byte prefix
0xff ‖ pack bytes, while the spec-described extraction would leave the
key unchanged (the short successor of "0xff" is not shorter). -/
theorem findShortSuccessor_mv_divergence :
    FindShortSuccessor true bytewiseUC
        ([255] ++ EncodeFixed64 (PackSequenceAndType 5 1) ++ EncodeFixed64 3) =
      [255, 2] ++ EncodeFixed64 (PackSequenceAndType kMaxSequenceNumber kValueTypeForSeek) ++
        EncodeFixed64 kMinValidTime ∧
    FindShortSuccessorSpec true bytewiseUC
        ([255] ++ EncodeFixed64 (PackSequenceAndType 5 1) ++ EncodeFixed64 3) =
      [255] ++ EncodeFixed64 (PackSequenceAndType 5 1) ++ EncodeFixed64 3 := by
  refine ⟨by decide, by decide⟩

-- ### lookup keys

/-- LookupKey::LookupKey from dbformat.cc: the bytes written from
`start_` to `end_` (a varint32 of `user_key_len + 8`, the user key, then
the packed tag encoded fixed64), paired with the offset of `kstart_`,
which the constructor sets to the position right after the varint. -/
def LookupKeyMk (user_key : List Nat) (s : Nat) : List Nat × Nat :=
  (EncodeVarint32 (user_key.length + 8) ++ user_key ++
     EncodeFixed64 (PackSequenceAndType s kValueTypeForSeek),
   (EncodeVarint32 (user_key.length + 8)).length)

/-- MVLookupKey::MVLookupKey from dbformat.cc: as LookupKey but with
`user_key_len + 16` in the varint and the valid time appended fixed64. -/
def MVLookupKeyMk (user_key : List Nat) (s t : Nat) : List Nat × Nat :=
  (EncodeVarint32 (user_key.length + 16) ++ user_key ++
     EncodeFixed64 (PackSequenceAndType s kValueTypeForSeek) ++ EncodeFixed64 t,
   (EncodeVarint32 (user_key.length + 16)).length)

/-- C7: the lookup key's byte content is
varint32(len(u)+8) ‖ u ‖ fixed64_le(pack(s, kValueTypeForSeek)) in SV
and varint32(len(u)+16) ‖ u ‖ fixed64_le(pack(s, kValueTypeForSeek)) ‖
fixed64_le(t) in MV, with pack(s, kValueTypeForSeek) = s·256 + 1; the
memtable_key view is the whole buffer and the internal_key view starts
right after the varint. -/
theorem lookupKey_layout (u : List Nat) (s t : Nat) (_hs : s ≤ kMaxSequenceNumber) :
    (LookupKeyMk u s).1 =
      EncodeVarint32 (u.length + 8) ++ u ++ EncodeFixed64 (s * 256 + kValueTypeForSeek) ∧
    ((LookupKeyMk u s).1).drop (LookupKeyMk u s).2 =
      u ++ EncodeFixed64 (s * 256 + kValueTypeForSeek) ∧
    (MVLookupKeyMk u s t).1 =
      EncodeVarint32 (u.length + 16) ++ u ++ EncodeFixed64 (s * 256 + kValueTypeForSeek) ++
        EncodeFixed64 t ∧
    ((MVLookupKeyMk u s t).1).drop (MVLookupKeyMk u s t).2 =
      u ++ EncodeFixed64 (s * 256 + kValueTypeForSeek) ++ EncodeFixed64 t := by
  have hp : PackSequenceAndType s kValueTypeForSeek = s * 256 + kValueTypeForSeek :=
    pack_eq_arith s _ (by norm_num [kValueTypeForSeek, kTypeValue])
  refine ⟨?_, ?_, ?_, ?_⟩
  · rw [LookupKeyMk, hp]
  · rw [LookupKeyMk, hp]
    simp only [List.append_assoc, List.drop_left]
  · rw [MVLookupKeyMk, hp]
  · rw [MVLookupKeyMk, hp]
    simp only [List.append_assoc, List.drop_left]

/-- Witness for C7 at a concrete input. -/
theorem lookupKey_layout_witness :
    (3 : Nat) ≤ kMaxSequenceNumber ∧
    (LookupKeyMk [97] 3).1 =
      EncodeVarint32 9 ++ [97] ++ EncodeFixed64 (3 * 256 + kValueTypeForSeek) ∧
    (MVLookupKeyMk [97] 3 5).1 =
      EncodeVarint32 17 ++ [97] ++ EncodeFixed64 (3 * 256 + kValueTypeForSeek) ++
        EncodeFixed64 5 :=
  ⟨by decide, (lookupKey_layout [97] 3 5 (by decide)).1,
   (lookupKey_layout [97] 3 5 (by decide)).2.2.1⟩

-- ### write batches

/-- Status values produced by this core: OK or a Corruption error with
its message (leveldb::Status as used in write_batch.cc). -/
inductive Status where
  | ok : Status
  | corruption (msg : String) : Status
deriving DecidableEq

/-- A record dispatched through WriteBatch::Handler. -/
inductive SVOp where
  | put (key value : List Nat) : SVOp
  | del (key : List Nat) : SVOp
deriving DecidableEq

/-- A record dispatched through WriteBatchMV::Handler. -/
inductive MVOp where
  | put (key : List Nat) (vt : Nat) (value : List Nat) : MVOp
  | del (key : List Nat) (vt : Nat) : MVOp
deriving DecidableEq

/-- kHeader = 12: an 8-byte sequence number and a 4-byte count. -/
def kHeader : Nat := 12

/-- WriteBatch::Clear (and WriteBatchMV::Clear, and the constructors):
clear and resize to the 12-byte zero header. -/
def WriteBatchClear : List Nat := List.replicate kHeader 0

/-- WriteBatch::ApproximateSize: the byte length of rep_. -/
def ApproximateSize (rep : List Nat) : Nat := rep.length

/-- WriteBatchInternal::Count: fixed32 at offset 8. -/
def WriteBatchCount (rep : List Nat) : Nat := DecodeFixed32 (rep.drop 8)

/-- WriteBatchInternal::Sequence: fixed64 at offset 0. -/
def WriteBatchSequence (rep : List Nat) : Nat := DecodeFixed64 rep

/-- The while-loop of WriteBatch::Iterate, returning the records
dispatched to the handler in dispatch order together with the loop's
status.  Every iteration consumes at least the tag byte, so
`input.length` bounds the iteration count; the `fuel` argument makes the
recursion structural and all callers pass at least `input.length`. -/
def svLoopFuel : Nat → List Nat → List SVOp × Status
  | _, [] => ([], Status.ok)
  | 0, _ :: _ => ([], Status.ok)
  | fuel + 1, tag :: rest =>
    if tag = kTypeValue then
      match GetLengthPrefixedSlice rest with
      | some (key, r1) =>
        match GetLengthPrefixedSlice r1 with
        | some (value, r2) =>
          (SVOp.put key value :: (svLoopFuel fuel r2).1, (svLoopFuel fuel r2).2)
        | none => ([], Status.corruption ("bad WriteBatch Put"))
      | none => ([], Status.corruption ("bad WriteBatch Put"))
    else if tag = kTypeDeletion then
      match GetLengthPrefixedSlice rest with
      | some (key, r1) =>
        (SVOp.del key :: (svLoopFuel fuel r1).1, (svLoopFuel fuel r1).2)
      | none => ([], Status.corruption ("bad WriteBatch Delete"))
    else ([], Status.corruption ("unknown WriteBatch tag"))

/-- The loop of WriteBatch::Iterate at its natural fuel. -/
def svLoop (input : List Nat) : List SVOp × Status :=
  svLoopFuel input.length input

/-- WriteBatch::Iterate from write_batch.cc. -/
def WriteBatchIterate (rep : List Nat) : List SVOp × Status :=
  if rep.length < kHeader then
    ([], Status.corruption ("malformed WriteBatch (too small)"))
  else
    match svLoop (rep.drop kHeader) with
    | (ops, Status.ok) =>
      if ops.length ≠ WriteBatchCount rep then
        (ops, Status.corruption ("WriteBatch has wrong count"))
      else (ops, Status.ok)
    | (ops, Status.corruption m) => (ops, Status.corruption m)

/-- The while-loop of WriteBatchMV::Iterate (MV records carry a fixed64
valid time after the key). -/
def mvLoopFuel : Nat → List Nat → List MVOp × Status
  | _, [] => ([], Status.ok)
  | 0, _ :: _ => ([], Status.ok)
  | fuel + 1, tag :: rest =>
    if tag = kTypeValue then
      match GetLengthPrefixedSlice rest with
      | some (key, r1) =>
        match GetFixed64 r1 with
        | some (vt, r2) =>
          match GetLengthPrefixedSlice r2 with
          | some (value, r3) =>
            (MVOp.put key vt value :: (mvLoopFuel fuel r3).1, (mvLoopFuel fuel r3).2)
          | none => ([], Status.corruption ("bad WriteBatchMV Put"))
        | none => ([], Status.corruption ("bad WriteBatchMV Put"))
      | none => ([], Status.corruption ("bad WriteBatchMV Put"))
    else if tag = kTypeDeletion then
      match GetLengthPrefixedSlice rest with
      | some (key, r1) =>
        match GetFixed64 r1 with
        | some (vt, r2) =>
          (MVOp.del key vt :: (mvLoopFuel fuel r2).1, (mvLoopFuel fuel r2).2)
        | none => ([], Status.corruption ("bad WriteBatchMV Delete"))
      | none => ([], Status.corruption ("bad WriteBatchMV Delete"))
    else ([], Status.corruption ("unknown WriteBatchMV tag"))

/-- The loop of WriteBatchMV::Iterate at its natural fuel. -/
def mvLoop (input : List Nat) : List MVOp × Status :=
  mvLoopFuel input.length input

/-- WriteBatchMV::Iterate from write_batch.cc. -/
def WriteBatchMVIterate (rep : List Nat) : List MVOp × Status :=
  if rep.length < kHeader then
    ([], Status.corruption ("malformed WriteBatchMV (too small)"))
  else
    match mvLoop (rep.drop kHeader) with
    | (ops, Status.ok) =>
      if ops.length ≠ WriteBatchCount rep then
        (ops, Status.corruption ("WriteBatchMV has wrong count"))
      else (ops, Status.ok)
    | (ops, Status.corruption m) => (ops, Status.corruption m)

/-- One MemTable::Add call. -/
structure MemEntry where
  seq : Nat
  typ : Nat
  key : List Nat
  value : List Nat
deriving DecidableEq

/-- One MemTable::AddMV call. -/
structure MVMemEntry where
  seq : Nat
  typ : Nat
  key : List Nat
  vt : Nat
  value : List Nat
deriving DecidableEq

/-- MemTableInserter from write_batch.cc: each Put/Delete callback calls
MemTable::Add with the running sequence_ counter (a uint64, hence the
mod) and increments it. -/
def MemTableInserterRun (sequence : Nat) : List SVOp → List MemEntry
  | [] => []
  | SVOp.put k v :: rest =>
      ⟨sequence, kTypeValue, k, v⟩ :: MemTableInserterRun ((sequence + 1) % 2 ^ 64) rest
  | SVOp.del k :: rest =>
      ⟨sequence, kTypeDeletion, k, []⟩ :: MemTableInserterRun ((sequence + 1) % 2 ^ 64) rest

/-- MemTableMVInsertor from write_batch.cc. -/
def MemTableMVInserterRun (sequence : Nat) : List MVOp → List MVMemEntry
  | [] => []
  | MVOp.put k vt v :: rest =>
      ⟨sequence, kTypeValue, k, vt, v⟩ :: MemTableMVInserterRun ((sequence + 1) % 2 ^ 64) rest
  | MVOp.del k vt :: rest =>
      ⟨sequence, kTypeDeletion, k, vt, []⟩ :: MemTableMVInserterRun ((sequence + 1) % 2 ^ 64) rest

/-- WriteBatchInternal::InsertInto: iterate the batch into a
MemTableInserter seeded with the header sequence number; the memtable
receives the Add calls dispatched before any error. -/
def InsertInto (rep : List Nat) : List MemEntry × Status :=
  (MemTableInserterRun (WriteBatchSequence rep) (WriteBatchIterate rep).1,
   (WriteBatchIterate rep).2)

/-- WriteBatchMVInternal::InsertInto. -/
def InsertIntoMV (rep : List Nat) : List MVMemEntry × Status :=
  (MemTableMVInserterRun (WriteBatchSequence rep) (WriteBatchMVIterate rep).1,
   (WriteBatchMVIterate rep).2)

-- ### the record grammar of §6, spec side

/-- One record of the write-batch record grammar (§6, SV): a tag byte,
then one length-prefixed slice for Delete or two for Put. -/
def parseSVRecord (input : List Nat) : Option (SVOp × List Nat) :=
  match input with
  | [] => none
  | tag :: rest =>
    if tag = kTypeValue then
      match GetLengthPrefixedSlice rest with
      | some (key, r1) =>
        match GetLengthPrefixedSlice r1 with
        | some (value, r2) => some (SVOp.put key value, r2)
        | none => none
      | none => none
    else if tag = kTypeDeletion then
      match GetLengthPrefixedSlice rest with
      | some (key, r1) => some (SVOp.del key, r1)
      | none => none
    else none

/-- One record of the write-batch record grammar (§6, MV): as SV with a
fixed64 valid time after the key. -/
def parseMVRecord (input : List Nat) : Option (MVOp × List Nat) :=
  match input with
  | [] => none
  | tag :: rest =>
    if tag = kTypeValue then
      match GetLengthPrefixedSlice rest with
      | some (key, r1) =>
        match GetFixed64 r1 with
        | some (vt, r2) =>
          match GetLengthPrefixedSlice r2 with
          | some (value, r3) => some (MVOp.put key vt value, r3)
          | none => none
        | none => none
      | none => none
    else if tag = kTypeDeletion then
      match GetLengthPrefixedSlice rest with
      | some (key, r1) =>
        match GetFixed64 r1 with
        | some (vt, r2) => some (MVOp.del key vt, r2)
        | none => none
      | none => none
    else none

/-- The full record sequence of the grammar: some list of records that
exactly consumes the input, none when any record is malformed. -/
def parseSVRecordsFuel : Nat → List Nat → Option (List SVOp)
  | _, [] => some []
  | 0, _ :: _ => none
  | fuel + 1, b :: rest =>
    match parseSVRecord (b :: rest) with
    | some (op, r2) => (parseSVRecordsFuel fuel r2).map (fun ops => op :: ops)
    | none => none

def parseSVRecords (input : List Nat) : Option (List SVOp) :=
  parseSVRecordsFuel input.length input

def parseMVRecordsFuel : Nat → List Nat → Option (List MVOp)
  | _, [] => some []
  | 0, _ :: _ => none
  | fuel + 1, b :: rest =>
    match parseMVRecord (b :: rest) with
    | some (op, r2) => (parseMVRecordsFuel fuel r2).map (fun ops => op :: ops)
    | none => none

def parseMVRecords (input : List Nat) : Option (List MVOp) :=
  parseMVRecordsFuel input.length input

/-- The maximal well-formed record prefix of the input: the records
before the first malformed point (or all of them). -/
def parseSVGreedyFuel : Nat → List Nat → List SVOp
  | _, [] => []
  | 0, _ :: _ => []
  | fuel + 1, b :: rest =>
    match parseSVRecord (b :: rest) with
    | some (op, r2) => op :: parseSVGreedyFuel fuel r2
    | none => []

def parseSVGreedy (input : List Nat) : List SVOp :=
  parseSVGreedyFuel input.length input

def parseMVGreedyFuel : Nat → List Nat → List MVOp
  | _, [] => []
  | 0, _ :: _ => []
  | fuel + 1, b :: rest =>
    match parseMVRecord (b :: rest) with
    | some (op, r2) => op :: parseMVGreedyFuel fuel r2
    | none => []

def parseMVGreedy (input : List Nat) : List MVOp :=
  parseMVGreedyFuel input.length input

/-- The record bytes appended by WriteBatch::Put / WriteBatch::Delete. -/
def encodeSVRecord : SVOp → List Nat
  | SVOp.put k v => kTypeValue :: (PutLengthPrefixedSlice k ++ PutLengthPrefixedSlice v)
  | SVOp.del k => kTypeDeletion :: PutLengthPrefixedSlice k

/-- The record bytes appended by WriteBatchMV::Put / WriteBatchMV::Delete. -/
def encodeMVRecord : MVOp → List Nat
  | MVOp.put k vt v =>
      kTypeValue :: (PutLengthPrefixedSlice k ++ EncodeFixed64 vt ++ PutLengthPrefixedSlice v)
  | MVOp.del k vt => kTypeDeletion :: (PutLengthPrefixedSlice k ++ EncodeFixed64 vt)

/-- The payload bytes of a record list. -/
def encodeSVOps (ops : List SVOp) : List Nat := (ops.map encodeSVRecord).flatten

def encodeMVOps (ops : List MVOp) : List Nat := (ops.map encodeMVRecord).flatten

/-- A full batch buffer: header (sequence, count) then the records. -/
def svBatchBytes (seq cnt : Nat) (ops : List SVOp) : List Nat :=
  EncodeFixed64 seq ++ EncodeFixed32 cnt ++ encodeSVOps ops

def mvBatchBytes (seq cnt : Nat) (ops : List MVOp) : List Nat :=
  EncodeFixed64 seq ++ EncodeFixed32 cnt ++ encodeMVOps ops

/-- Record well-formedness needed for the varint32 length round-trip. -/
def svOpGood : SVOp → Prop
  | SVOp.put k v => k.length < 2 ^ 32 ∧ v.length < 2 ^ 32
  | SVOp.del k => k.length < 2 ^ 32

instance : DecidablePred svOpGood := fun op =>
  match op with
  | SVOp.put k v => inferInstanceAs (Decidable (k.length < 2 ^ 32 ∧ v.length < 2 ^ 32))
  | SVOp.del k => inferInstanceAs (Decidable (k.length < 2 ^ 32))

def mvOpGood : MVOp → Prop
  | MVOp.put k vt v => k.length < 2 ^ 32 ∧ vt < 2 ^ 64 ∧ v.length < 2 ^ 32
  | MVOp.del k vt => k.length < 2 ^ 32 ∧ vt < 2 ^ 64

instance : DecidablePred mvOpGood := fun op =>
  match op with
  | MVOp.put k vt v =>
      inferInstanceAs (Decidable (k.length < 2 ^ 32 ∧ vt < 2 ^ 64 ∧ v.length < 2 ^ 32))
  | MVOp.del k vt => inferInstanceAs (Decidable (k.length < 2 ^ 32 ∧ vt < 2 ^ 64))

/-- The memtable entry produced for the i-th record when replay starts
at sequence `s`. -/
def svEntry (s : Nat) : SVOp → MemEntry
  | SVOp.put k v => ⟨s, kTypeValue, k, v⟩
  | SVOp.del k => ⟨s, kTypeDeletion, k, []⟩

def mvEntry (s : Nat) : MVOp → MVMemEntry
  | MVOp.put k vt v => ⟨s, kTypeValue, k, vt, v⟩
  | MVOp.del k vt => ⟨s, kTypeDeletion, k, vt, []⟩

-- ### consumption lemmas (each parse step eats at least one byte)

theorem getVarint32Loop_cont (b : Nat) (l : List Nat) (shift res : Nat)
    (hb : 128 ≤ b) (hs : ¬ 28 < shift) :
    GetVarint32Loop (b :: l) shift res =
      GetVarint32Loop l (shift + 7) (res + b % 128 * 2 ^ shift) := by
  simp only [GetVarint32Loop, if_neg hs, if_pos hb]

theorem getVarint32Loop_fin (b : Nat) (l : List Nat) (shift res : Nat)
    (hb : b < 128) (hs : ¬ 28 < shift) :
    GetVarint32Loop (b :: l) shift res = some (res + b * 2 ^ shift, l) := by
  simp only [GetVarint32Loop, if_neg hs, if_neg (by omega : ¬ 128 ≤ b)]

theorem getVarint32Loop_length : ∀ (l : List Nat) (shift res n : Nat) (rest : List Nat),
    GetVarint32Loop l shift res = some (n, rest) → rest.length < l.length := by
  intro l
  induction l with
  | nil =>
    intro shift res n rest h
    simp [GetVarint32Loop] at h
  | cons b bs ih =>
    intro shift res n rest h
    simp only [GetVarint32Loop] at h
    by_cases hs : 28 < shift
    · rw [if_pos hs] at h
      exact absurd h (by simp)
    · rw [if_neg hs] at h
      by_cases hb : 128 ≤ b
      · rw [if_pos hb] at h
        have := ih _ _ _ _ h
        simp only [List.length_cons]
        omega
      · rw [if_neg hb] at h
        simp only [Option.some.injEq, Prod.mk.injEq] at h
        obtain ⟨h1, h2⟩ := h
        subst h2
        simp only [List.length_cons]
        omega

theorem getLengthPrefixedSlice_length (input : List Nat) (s rest : List Nat)
    (h : GetLengthPrefixedSlice input = some (s, rest)) : rest.length < input.length := by
  unfold GetLengthPrefixedSlice at h
  split at h
  · rename_i len r0 heq
    split at h
    · rename_i hle
      have hlt := getVarint32Loop_length input 0 0 len r0 heq
      simp only [Option.some.injEq, Prod.mk.injEq] at h
      obtain ⟨h1, h2⟩ := h
      subst h2
      simp only [List.length_drop]
      omega
    · exact absurd h (by simp)
  · exact absurd h (by simp)

theorem getFixed64_length (input : List Nat) (v : Nat) (rest : List Nat)
    (h : GetFixed64 input = some (v, rest)) : rest.length < input.length := by
  unfold GetFixed64 at h
  split at h
  · rename_i h8
    simp only [Option.some.injEq, Prod.mk.injEq] at h
    obtain ⟨h1, h2⟩ := h
    subst h2
    simp only [List.length_drop]
    omega
  · exact absurd h (by simp)

theorem parseSVRecord_length (input : List Nat) (op : SVOp) (rest : List Nat)
    (h : parseSVRecord input = some (op, rest)) : rest.length < input.length := by
  cases input with
  | nil => simp [parseSVRecord] at h
  | cons tag rest0 =>
    simp only [List.length_cons]
    by_cases h1 : tag = kTypeValue
    · cases hk : GetLengthPrefixedSlice rest0 with
      | none => simp [parseSVRecord, h1, hk] at h
      | some p =>
        obtain ⟨key, r1⟩ := p
        cases hv : GetLengthPrefixedSlice r1 with
        | none => simp [parseSVRecord, h1, hk, hv] at h
        | some q =>
          obtain ⟨value, r2⟩ := q
          simp [parseSVRecord, h1, hk, hv] at h
          obtain ⟨h2, h3⟩ := h
          subst h3
          have l1 := getLengthPrefixedSlice_length rest0 key r1 hk
          have l2 := getLengthPrefixedSlice_length r1 value r2 hv
          omega
    · by_cases h0 : tag = kTypeDeletion
      · cases hk : GetLengthPrefixedSlice rest0 with
        | none => simp [parseSVRecord, h1, h0, hk, kTypeValue, kTypeDeletion] at h
        | some p =>
          obtain ⟨key, r1⟩ := p
          simp [parseSVRecord, h1, h0, hk, kTypeValue, kTypeDeletion] at h
          obtain ⟨h2, h3⟩ := h
          subst h3
          have l1 := getLengthPrefixedSlice_length rest0 key r1 hk
          omega
      · simp [parseSVRecord, h1, h0] at h

theorem parseMVRecord_length (input : List Nat) (op : MVOp) (rest : List Nat)
    (h : parseMVRecord input = some (op, rest)) : rest.length < input.length := by
  cases input with
  | nil => simp [parseMVRecord] at h
  | cons tag rest0 =>
    simp only [List.length_cons]
    by_cases h1 : tag = kTypeValue
    · cases hk : GetLengthPrefixedSlice rest0 with
      | none => simp [parseMVRecord, h1, hk] at h
      | some p =>
        obtain ⟨key, r1⟩ := p
        cases hvt : GetFixed64 r1 with
        | none => simp [parseMVRecord, h1, hk, hvt] at h
        | some q =>
          obtain ⟨vt, r2⟩ := q
          cases hv : GetLengthPrefixedSlice r2 with
          | none => simp [parseMVRecord, h1, hk, hvt, hv] at h
          | some w =>
            obtain ⟨value, r3⟩ := w
            simp [parseMVRecord, h1, hk, hvt, hv] at h
            obtain ⟨h2, h3⟩ := h
            subst h3
            have l1 := getLengthPrefixedSlice_length rest0 key r1 hk
            have l2 := getFixed64_length r1 vt r2 hvt
            have l3 := getLengthPrefixedSlice_length r2 value r3 hv
            omega
    · by_cases h0 : tag = kTypeDeletion
      · cases hk : GetLengthPrefixedSlice rest0 with
        | none => simp [parseMVRecord, h1, h0, hk, kTypeValue, kTypeDeletion] at h
        | some p =>
          obtain ⟨key, r1⟩ := p
          cases hvt : GetFixed64 r1 with
          | none => simp [parseMVRecord, h1, h0, hk, hvt, kTypeValue, kTypeDeletion] at h
          | some q =>
            obtain ⟨vt, r2⟩ := q
            simp [parseMVRecord, h1, h0, hk, hvt, kTypeValue, kTypeDeletion] at h
            obtain ⟨h2, h3⟩ := h
            subst h3
            have l1 := getLengthPrefixedSlice_length rest0 key r1 hk
            have l2 := getFixed64_length r1 vt r2 hvt
            omega
      · simp [parseMVRecord, h1, h0] at h

-- ### encode/decode round trips

theorem getVarint32_encode (v : Nat) (rest : List Nat) (hv : v < 2 ^ 32) :
    GetVarint32 (EncodeVarint32 v ++ rest) = some (v, rest) := by
  unfold GetVarint32 EncodeVarint32
  by_cases h1 : v < 2 ^ 7
  · rw [if_pos h1]
    simp only [List.cons_append, List.nil_append]
    rw [getVarint32Loop_fin _ _ _ _ (by omega) (by omega)]
    simp only [Option.some.injEq, Prod.mk.injEq, and_true]
    omega
  · rw [if_neg h1]
    by_cases h2 : v < 2 ^ 14
    · rw [if_pos h2]
      simp only [List.cons_append, List.nil_append]
      rw [getVarint32Loop_cont _ _ _ _ (by omega) (by omega),
        getVarint32Loop_fin _ _ _ _ (by omega) (by omega)]
      simp only [Option.some.injEq, Prod.mk.injEq, and_true]
      omega
    · rw [if_neg h2]
      by_cases h3 : v < 2 ^ 21
      · rw [if_pos h3]
        simp only [List.cons_append, List.nil_append]
        rw [getVarint32Loop_cont _ _ _ _ (by omega) (by omega),
          getVarint32Loop_cont _ _ _ _ (by omega) (by omega),
          getVarint32Loop_fin _ _ _ _ (by omega) (by omega)]
        simp only [Option.some.injEq, Prod.mk.injEq, and_true]
        omega
      · rw [if_neg h3]
        by_cases h4 : v < 2 ^ 28
        · rw [if_pos h4]
          simp only [List.cons_append, List.nil_append]
          rw [getVarint32Loop_cont _ _ _ _ (by omega) (by omega),
            getVarint32Loop_cont _ _ _ _ (by omega) (by omega),
            getVarint32Loop_cont _ _ _ _ (by omega) (by omega),
            getVarint32Loop_fin _ _ _ _ (by omega) (by omega)]
          simp only [Option.some.injEq, Prod.mk.injEq, and_true]
          omega
        · rw [if_neg h4]
          simp only [List.cons_append, List.nil_append]
          rw [getVarint32Loop_cont _ _ _ _ (by omega) (by omega),
            getVarint32Loop_cont _ _ _ _ (by omega) (by omega),
            getVarint32Loop_cont _ _ _ _ (by omega) (by omega),
            getVarint32Loop_cont _ _ _ _ (by omega) (by omega),
            getVarint32Loop_fin _ _ _ _ (by omega) (by omega)]
          simp only [Option.some.injEq, Prod.mk.injEq, and_true]
          omega

theorem getLengthPrefixedSlice_encode (s rest : List Nat) (hs : s.length < 2 ^ 32) :
    GetLengthPrefixedSlice (PutLengthPrefixedSlice s ++ rest) = some (s, rest) := by
  unfold GetLengthPrefixedSlice PutLengthPrefixedSlice
  rw [List.append_assoc]
  simp only [getVarint32_encode s.length (s ++ rest) hs]
  rw [if_pos (by simp [List.length_append])]
  simp [List.take_left, List.drop_left]

theorem getFixed64_encode (v : Nat) (rest : List Nat) :
    GetFixed64 (EncodeFixed64 v ++ rest) = some (v % 2 ^ 64, rest) := by
  unfold GetFixed64
  have h8 : (8 : Nat) ≤ (EncodeFixed64 v ++ rest).length := by
    simp [List.length_append, encodeFixed64_length]
  rw [if_pos h8, decodeFixed64_encode]
  have hdrop : (EncodeFixed64 v ++ rest).drop 8 = rest := by
    rw [show (8 : Nat) = (EncodeFixed64 v).length from (encodeFixed64_length v).symm]
    exact List.drop_left _ _
  rw [hdrop]

theorem parseSVRecord_encode (op : SVOp) (rest : List Nat) (hop : svOpGood op) :
    parseSVRecord (encodeSVRecord op ++ rest) = some (op, rest) := by
  cases op with
  | put k v =>
    obtain ⟨hk, hv⟩ := hop
    simp [encodeSVRecord, parseSVRecord, List.cons_append, List.append_assoc,
      getLengthPrefixedSlice_encode k _ hk, getLengthPrefixedSlice_encode v rest hv]
  | del k =>
    simp [encodeSVRecord, parseSVRecord, List.cons_append, kTypeDeletion, kTypeValue,
      getLengthPrefixedSlice_encode k rest hop]

theorem parseMVRecord_encode (op : MVOp) (rest : List Nat) (hop : mvOpGood op) :
    parseMVRecord (encodeMVRecord op ++ rest) = some (op, rest) := by
  cases op with
  | put k vt v =>
    obtain ⟨hk, hb, hv⟩ := hop
    have hvt := getFixed64_encode vt (PutLengthPrefixedSlice v ++ rest)
    rw [Nat.mod_eq_of_lt hb] at hvt
    simp [encodeMVRecord, parseMVRecord, List.cons_append, List.append_assoc,
      getLengthPrefixedSlice_encode k _ hk, hvt,
      getLengthPrefixedSlice_encode v rest hv]
  | del k vt =>
    obtain ⟨hk, hb⟩ := hop
    have hvt := getFixed64_encode vt rest
    rw [Nat.mod_eq_of_lt hb] at hvt
    simp [encodeMVRecord, parseMVRecord, List.cons_append, List.append_assoc,
      kTypeDeletion, kTypeValue, getLengthPrefixedSlice_encode k _ hk, hvt]

-- ### the loop of Iterate against the record grammar (SV)

theorem svLoop_master : ∀ (fuel : Nat) (input : List Nat), input.length ≤ fuel →
    (svLoopFuel fuel input).1 = parseSVGreedyFuel fuel input ∧
    ((svLoopFuel fuel input).2 = Status.ok →
      parseSVRecordsFuel fuel input = some (parseSVGreedyFuel fuel input)) ∧
    (∀ ops, parseSVRecordsFuel fuel input = some ops →
      (svLoopFuel fuel input).2 = Status.ok ∧ ops = parseSVGreedyFuel fuel input) := by
  intro fuel
  induction fuel with
  | zero =>
    intro input h
    have hnil : input = [] := List.length_eq_zero.mp (Nat.le_zero.mp h)
    subst hnil
    refine ⟨rfl, fun _ => rfl, ?_⟩
    intro ops hops
    simp only [parseSVRecordsFuel, Option.some.injEq] at hops
    exact ⟨rfl, hops.symm⟩
  | succ f ih =>
    intro input h
    cases input with
    | nil =>
      refine ⟨rfl, fun _ => rfl, ?_⟩
      intro ops hops
      simp only [parseSVRecordsFuel, Option.some.injEq] at hops
      exact ⟨rfl, hops.symm⟩
    | cons tag rest =>
      simp only [List.length_cons] at h
      by_cases h1 : tag = kTypeValue
      · subst h1
        cases hk : GetLengthPrefixedSlice rest with
        | none =>
          have hrec : parseSVRecord (kTypeValue :: rest) = none := by
            simp [parseSVRecord, hk]
          refine ⟨?_, ?_, ?_⟩
          · simp [svLoopFuel, parseSVGreedyFuel, hk, hrec]
          · intro hok
            simp [svLoopFuel, hk] at hok
          · intro ops hops
            simp [parseSVRecordsFuel, hrec] at hops
        | some p =>
          obtain ⟨key, r1⟩ := p
          cases hv : GetLengthPrefixedSlice r1 with
          | none =>
            have hrec : parseSVRecord (kTypeValue :: rest) = none := by
              simp [parseSVRecord, hk, hv]
            refine ⟨?_, ?_, ?_⟩
            · simp [svLoopFuel, parseSVGreedyFuel, hk, hv, hrec]
            · intro hok
              simp [svLoopFuel, hk, hv] at hok
            · intro ops hops
              simp [parseSVRecordsFuel, hrec] at hops
          | some q =>
            obtain ⟨value, r2⟩ := q
            have e1 := getLengthPrefixedSlice_length rest key r1 hk
            have e2 := getLengthPrefixedSlice_length r1 value r2 hv
            obtain ⟨ih1, ih2, ih3⟩ := ih r2 (by omega)
            have hrec : parseSVRecord (kTypeValue :: rest) = some (SVOp.put key value, r2) := by
              simp [parseSVRecord, hk, hv]
            refine ⟨?_, ?_, ?_⟩
            · simp [svLoopFuel, parseSVGreedyFuel, hk, hv, hrec, ih1]
            · intro hok
              simp only [svLoopFuel, if_true, hk, hv] at hok
              have := ih2 hok
              simp [parseSVRecordsFuel, parseSVGreedyFuel, hrec, this]
            · intro ops hops
              simp only [parseSVRecordsFuel, hrec, Option.map_eq_some'] at hops
              obtain ⟨ops2, hops2, rfl⟩ := hops
              obtain ⟨hok2, hgr2⟩ := ih3 ops2 hops2
              constructor
              · simp [svLoopFuel, hk, hv, hok2]
              · simp [parseSVGreedyFuel, hrec, hgr2]
      · by_cases h0 : tag = kTypeDeletion
        · subst h0
          cases hk : GetLengthPrefixedSlice rest with
          | none =>
            have hrec : parseSVRecord (kTypeDeletion :: rest) = none := by
              simp [parseSVRecord, h1, hk, kTypeValue, kTypeDeletion]
            refine ⟨?_, ?_, ?_⟩
            · simp [svLoopFuel, parseSVGreedyFuel, h1, hk, hrec]
            · intro hok
              simp [svLoopFuel, h1, hk] at hok
            · intro ops hops
              simp [parseSVRecordsFuel, hrec] at hops
          | some p =>
            obtain ⟨key, r1⟩ := p
            have e1 := getLengthPrefixedSlice_length rest key r1 hk
            obtain ⟨ih1, ih2, ih3⟩ := ih r1 (by omega)
            have hrec : parseSVRecord (kTypeDeletion :: rest) = some (SVOp.del key, r1) := by
              simp [parseSVRecord, h1, hk, kTypeValue, kTypeDeletion]
            refine ⟨?_, ?_, ?_⟩
            · simp [svLoopFuel, parseSVGreedyFuel, h1, hk, hrec, ih1]
            · intro hok
              simp only [svLoopFuel, if_true, hk] at hok
              rw [if_neg h1] at hok
              simp only [if_true, hk] at hok
              have := ih2 hok
              simp [parseSVRecordsFuel, parseSVGreedyFuel, hrec, this]
            · intro ops hops
              simp only [parseSVRecordsFuel, hrec, Option.map_eq_some'] at hops
              obtain ⟨ops2, hops2, rfl⟩ := hops
              obtain ⟨hok2, hgr2⟩ := ih3 ops2 hops2
              constructor
              · simp [svLoopFuel, h1, hk, hok2]
              · simp [parseSVGreedyFuel, hrec, hgr2]
        · have hrec : parseSVRecord (tag :: rest) = none := by
            simp [parseSVRecord, h1, h0]
          refine ⟨?_, ?_, ?_⟩
          · simp [svLoopFuel, parseSVGreedyFuel, h1, h0, hrec]
          · intro hok
            simp [svLoopFuel, h1, h0] at hok
          · intro ops hops
            simp [parseSVRecordsFuel, hrec] at hops

-- ### the loop of WriteBatchMV::Iterate against the record grammar (MV)

theorem mvLoop_master : ∀ (fuel : Nat) (input : List Nat), input.length ≤ fuel →
    (mvLoopFuel fuel input).1 = parseMVGreedyFuel fuel input ∧
    ((mvLoopFuel fuel input).2 = Status.ok →
      parseMVRecordsFuel fuel input = some (parseMVGreedyFuel fuel input)) ∧
    (∀ ops, parseMVRecordsFuel fuel input = some ops →
      (mvLoopFuel fuel input).2 = Status.ok ∧ ops = parseMVGreedyFuel fuel input) := by
  intro fuel
  induction fuel with
  | zero =>
    intro input h
    have hnil : input = [] := List.length_eq_zero.mp (Nat.le_zero.mp h)
    subst hnil
    refine ⟨rfl, fun _ => rfl, ?_⟩
    intro ops hops
    simp only [parseMVRecordsFuel, Option.some.injEq] at hops
    exact ⟨rfl, hops.symm⟩
  | succ f ih =>
    intro input h
    cases input with
    | nil =>
      refine ⟨rfl, fun _ => rfl, ?_⟩
      intro ops hops
      simp only [parseMVRecordsFuel, Option.some.injEq] at hops
      exact ⟨rfl, hops.symm⟩
    | cons tag rest =>
      simp only [List.length_cons] at h
      by_cases h1 : tag = kTypeValue
      · subst h1
        cases hk : GetLengthPrefixedSlice rest with
        | none =>
          have hrec : parseMVRecord (kTypeValue :: rest) = none := by
            simp [parseMVRecord, hk]
          refine ⟨?_, ?_, ?_⟩
          · simp [mvLoopFuel, parseMVGreedyFuel, hk, hrec]
          · intro hok
            simp [mvLoopFuel, hk] at hok
          · intro ops hops
            simp [parseMVRecordsFuel, hrec] at hops
        | some p =>
          obtain ⟨key, r1⟩ := p
          cases hvt : GetFixed64 r1 with
          | none =>
            have hrec : parseMVRecord (kTypeValue :: rest) = none := by
              simp [parseMVRecord, hk, hvt]
            refine ⟨?_, ?_, ?_⟩
            · simp [mvLoopFuel, parseMVGreedyFuel, hk, hvt, hrec]
            · intro hok
              simp [mvLoopFuel, hk, hvt] at hok
            · intro ops hops
              simp [parseMVRecordsFuel, hrec] at hops
          | some q =>
            obtain ⟨vt, r2⟩ := q
            cases hv : GetLengthPrefixedSlice r2 with
            | none =>
              have hrec : parseMVRecord (kTypeValue :: rest) = none := by
                simp [parseMVRecord, hk, hvt, hv]
              refine ⟨?_, ?_, ?_⟩
              · simp [mvLoopFuel, parseMVGreedyFuel, hk, hvt, hv, hrec]
              · intro hok
                simp [mvLoopFuel, hk, hvt, hv] at hok
              · intro ops hops
                simp [parseMVRecordsFuel, hrec] at hops
            | some w =>
              obtain ⟨value, r3⟩ := w
              have e1 := getLengthPrefixedSlice_length rest key r1 hk
              have e2 := getFixed64_length r1 vt r2 hvt
              have e3 := getLengthPrefixedSlice_length r2 value r3 hv
              obtain ⟨ih1, ih2, ih3⟩ := ih r3 (by omega)
              have hrec : parseMVRecord (kTypeValue :: rest) = some (MVOp.put key vt value, r3) := by
                simp [parseMVRecord, hk, hvt, hv]
              refine ⟨?_, ?_, ?_⟩
              · simp [mvLoopFuel, parseMVGreedyFuel, hk, hvt, hv, hrec, ih1]
              · intro hok
                simp only [mvLoopFuel, if_true, hk, hvt, hv] at hok
                have := ih2 hok
                simp [parseMVRecordsFuel, parseMVGreedyFuel, hrec, this]
              · intro ops hops
                simp only [parseMVRecordsFuel, hrec, Option.map_eq_some'] at hops
                obtain ⟨ops2, hops2, rfl⟩ := hops
                obtain ⟨hok2, hgr2⟩ := ih3 ops2 hops2
                constructor
                · simp [mvLoopFuel, hk, hvt, hv, hok2]
                · simp [parseMVGreedyFuel, hrec, hgr2]
      · by_cases h0 : tag = kTypeDeletion
        · subst h0
          cases hk : GetLengthPrefixedSlice rest with
          | none =>
            have hrec : parseMVRecord (kTypeDeletion :: rest) = none := by
              simp [parseMVRecord, h1, hk, kTypeValue, kTypeDeletion]
            refine ⟨?_, ?_, ?_⟩
            · simp [mvLoopFuel, parseMVGreedyFuel, h1, hk, hrec]
            · intro hok
              simp [mvLoopFuel, h1, hk] at hok
            · intro ops hops
              simp [parseMVRecordsFuel, hrec] at hops
          | some p =>
            obtain ⟨key, r1⟩ := p
            cases hvt : GetFixed64 r1 with
            | none =>
              have hrec : parseMVRecord (kTypeDeletion :: rest) = none := by
                simp [parseMVRecord, h1, hk, hvt, kTypeValue, kTypeDeletion]
              refine ⟨?_, ?_, ?_⟩
              · simp [mvLoopFuel, parseMVGreedyFuel, h1, hk, hvt, hrec]
              · intro hok
                simp [mvLoopFuel, h1, hk, hvt] at hok
              · intro ops hops
                simp [parseMVRecordsFuel, hrec] at hops
            | some q =>
              obtain ⟨vt, r2⟩ := q
              have e1 := getLengthPrefixedSlice_length rest key r1 hk
              have e2 := getFixed64_length r1 vt r2 hvt
              obtain ⟨ih1, ih2, ih3⟩ := ih r2 (by omega)
              have hrec : parseMVRecord (kTypeDeletion :: rest) = some (MVOp.del key vt, r2) := by
                simp [parseMVRecord, h1, hk, hvt, kTypeValue, kTypeDeletion]
              refine ⟨?_, ?_, ?_⟩
              · simp [mvLoopFuel, parseMVGreedyFuel, h1, hk, hvt, hrec, ih1]
              · intro hok
                simp only [mvLoopFuel, if_true, hk, hvt] at hok
                rw [if_neg h1] at hok
                simp only [if_true, hk, hvt] at hok
                have := ih2 hok
                simp [parseMVRecordsFuel, parseMVGreedyFuel, hrec, this]
              · intro ops hops
                simp only [parseMVRecordsFuel, hrec, Option.map_eq_some'] at hops
                obtain ⟨ops2, hops2, rfl⟩ := hops
                obtain ⟨hok2, hgr2⟩ := ih3 ops2 hops2
                constructor
                · simp [mvLoopFuel, h1, hk, hvt, hok2]
                · simp [parseMVGreedyFuel, hrec, hgr2]
        · have hrec : parseMVRecord (tag :: rest) = none := by
            simp [parseMVRecord, h1, h0]
          refine ⟨?_, ?_, ?_⟩
          · simp [mvLoopFuel, parseMVGreedyFuel, h1, h0, hrec]
          · intro hok
            simp [mvLoopFuel, h1, h0] at hok
          · intro ops hops
            simp [parseMVRecordsFuel, hrec] at hops

/-- The loop of WriteBatchMV::Iterate dispatches exactly the well-formed
record prefix, and succeeds exactly on a full parse. -/
theorem mvLoop_spec (input : List Nat) :
    (mvLoop input).1 = parseMVGreedy input ∧
    ((mvLoop input).2 = Status.ok →
      parseMVRecords input = some (parseMVGreedy input)) ∧
    (∀ ops, parseMVRecords input = some ops →
      (mvLoop input).2 = Status.ok ∧ ops = parseMVGreedy input) :=
  mvLoop_master input.length input (Nat.le_refl _)

/-- The loop of WriteBatch::Iterate dispatches exactly the well-formed
record prefix, and succeeds exactly on a full parse. -/
theorem svLoop_spec (input : List Nat) :
    (svLoop input).1 = parseSVGreedy input ∧
    ((svLoop input).2 = Status.ok →
      parseSVRecords input = some (parseSVGreedy input)) ∧
    (∀ ops, parseSVRecords input = some ops →
      (svLoop input).2 = Status.ok ∧ ops = parseSVGreedy input) :=
  svLoop_master input.length input (Nat.le_refl _)

-- ### wrapper-level facts about the grammar parsers

theorem parseSVGreedyFuel_norm : ∀ (fuel : Nat) (input : List Nat), input.length ≤ fuel →
    parseSVGreedyFuel fuel input = parseSVGreedy input := by
  intro fuel
  induction fuel using Nat.strong_induction_on with
  | _ fuel ih =>
    intro input h
    cases input with
    | nil => cases fuel <;> rfl
    | cons b rest =>
      cases fuel with
      | zero => simp at h
      | succ f =>
        show parseSVGreedyFuel (f + 1) (b :: rest) =
          parseSVGreedyFuel (rest.length + 1) (b :: rest)
        cases hrec : parseSVRecord (b :: rest) with
        | none => simp [parseSVGreedyFuel, hrec]
        | some p =>
          obtain ⟨op, r2⟩ := p
          have hl := parseSVRecord_length _ _ _ hrec
          simp only [List.length_cons] at h hl
          simp only [parseSVGreedyFuel, hrec]
          rw [ih f (by omega) r2 (by omega), ih rest.length (by omega) r2 (by omega)]

theorem parseSVRecordsFuel_norm : ∀ (fuel : Nat) (input : List Nat), input.length ≤ fuel →
    parseSVRecordsFuel fuel input = parseSVRecords input := by
  intro fuel
  induction fuel using Nat.strong_induction_on with
  | _ fuel ih =>
    intro input h
    cases input with
    | nil => cases fuel <;> rfl
    | cons b rest =>
      cases fuel with
      | zero => simp at h
      | succ f =>
        show parseSVRecordsFuel (f + 1) (b :: rest) =
          parseSVRecordsFuel (rest.length + 1) (b :: rest)
        cases hrec : parseSVRecord (b :: rest) with
        | none => simp [parseSVRecordsFuel, hrec]
        | some p =>
          obtain ⟨op, r2⟩ := p
          have hl := parseSVRecord_length _ _ _ hrec
          simp only [List.length_cons] at h hl
          simp only [parseSVRecordsFuel, hrec]
          rw [ih f (by omega) r2 (by omega), ih rest.length (by omega) r2 (by omega)]

theorem parseMVGreedyFuel_norm : ∀ (fuel : Nat) (input : List Nat), input.length ≤ fuel →
    parseMVGreedyFuel fuel input = parseMVGreedy input := by
  intro fuel
  induction fuel using Nat.strong_induction_on with
  | _ fuel ih =>
    intro input h
    cases input with
    | nil => cases fuel <;> rfl
    | cons b rest =>
      cases fuel with
      | zero => simp at h
      | succ f =>
        show parseMVGreedyFuel (f + 1) (b :: rest) =
          parseMVGreedyFuel (rest.length + 1) (b :: rest)
        cases hrec : parseMVRecord (b :: rest) with
        | none => simp [parseMVGreedyFuel, hrec]
        | some p =>
          obtain ⟨op, r2⟩ := p
          have hl := parseMVRecord_length _ _ _ hrec
          simp only [List.length_cons] at h hl
          simp only [parseMVGreedyFuel, hrec]
          rw [ih f (by omega) r2 (by omega), ih rest.length (by omega) r2 (by omega)]

theorem parseMVRecordsFuel_norm : ∀ (fuel : Nat) (input : List Nat), input.length ≤ fuel →
    parseMVRecordsFuel fuel input = parseMVRecords input := by
  intro fuel
  induction fuel using Nat.strong_induction_on with
  | _ fuel ih =>
    intro input h
    cases input with
    | nil => cases fuel <;> rfl
    | cons b rest =>
      cases fuel with
      | zero => simp at h
      | succ f =>
        show parseMVRecordsFuel (f + 1) (b :: rest) =
          parseMVRecordsFuel (rest.length + 1) (b :: rest)
        cases hrec : parseMVRecord (b :: rest) with
        | none => simp [parseMVRecordsFuel, hrec]
        | some p =>
          obtain ⟨op, r2⟩ := p
          have hl := parseMVRecord_length _ _ _ hrec
          simp only [List.length_cons] at h hl
          simp only [parseMVRecordsFuel, hrec]
          rw [ih f (by omega) r2 (by omega), ih rest.length (by omega) r2 (by omega)]

theorem parseSVGreedy_cons {input : List Nat} {op : SVOp} {r2 : List Nat}
    (h : parseSVRecord input = some (op, r2)) :
    parseSVGreedy input = op :: parseSVGreedy r2 := by
  cases input with
  | nil => simp [parseSVRecord] at h
  | cons b rest =>
    have hl := parseSVRecord_length _ _ _ h
    simp only [List.length_cons] at hl
    show parseSVGreedyFuel (rest.length + 1) (b :: rest) = _
    simp only [parseSVGreedyFuel, h]
    rw [parseSVGreedyFuel_norm rest.length r2 (by omega)]

theorem parseSVGreedy_none {input : List Nat} (h : parseSVRecord input = none) :
    parseSVGreedy input = [] := by
  cases input with
  | nil => rfl
  | cons b rest =>
    show parseSVGreedyFuel (rest.length + 1) (b :: rest) = []
    simp [parseSVGreedyFuel, h]

theorem parseSVRecords_cons {input : List Nat} {op : SVOp} {r2 : List Nat}
    (h : parseSVRecord input = some (op, r2)) :
    parseSVRecords input = (parseSVRecords r2).map (fun ops => op :: ops) := by
  cases input with
  | nil => simp [parseSVRecord] at h
  | cons b rest =>
    have hl := parseSVRecord_length _ _ _ h
    simp only [List.length_cons] at hl
    show parseSVRecordsFuel (rest.length + 1) (b :: rest) = _
    simp only [parseSVRecordsFuel, h]
    rw [parseSVRecordsFuel_norm rest.length r2 (by omega)]

theorem parseMVGreedy_cons {input : List Nat} {op : MVOp} {r2 : List Nat}
    (h : parseMVRecord input = some (op, r2)) :
    parseMVGreedy input = op :: parseMVGreedy r2 := by
  cases input with
  | nil => simp [parseMVRecord] at h
  | cons b rest =>
    have hl := parseMVRecord_length _ _ _ h
    simp only [List.length_cons] at hl
    show parseMVGreedyFuel (rest.length + 1) (b :: rest) = _
    simp only [parseMVGreedyFuel, h]
    rw [parseMVGreedyFuel_norm rest.length r2 (by omega)]

theorem parseMVGreedy_none {input : List Nat} (h : parseMVRecord input = none) :
    parseMVGreedy input = [] := by
  cases input with
  | nil => rfl
  | cons b rest =>
    show parseMVGreedyFuel (rest.length + 1) (b :: rest) = []
    simp [parseMVGreedyFuel, h]

theorem parseMVRecords_cons {input : List Nat} {op : MVOp} {r2 : List Nat}
    (h : parseMVRecord input = some (op, r2)) :
    parseMVRecords input = (parseMVRecords r2).map (fun ops => op :: ops) := by
  cases input with
  | nil => simp [parseMVRecord] at h
  | cons b rest =>
    have hl := parseMVRecord_length _ _ _ h
    simp only [List.length_cons] at hl
    show parseMVRecordsFuel (rest.length + 1) (b :: rest) = _
    simp only [parseMVRecordsFuel, h]
    rw [parseMVRecordsFuel_norm rest.length r2 (by omega)]

-- ### parsing canonically encoded batches

theorem encodeSVOps_cons (op : SVOp) (rest : List SVOp) :
    encodeSVOps (op :: rest) = encodeSVRecord op ++ encodeSVOps rest := by
  simp [encodeSVOps]

theorem encodeMVOps_cons (op : MVOp) (rest : List MVOp) :
    encodeMVOps (op :: rest) = encodeMVRecord op ++ encodeMVOps rest := by
  simp [encodeMVOps]

theorem parseSVRecords_encode (ops : List SVOp) (hops : ∀ op ∈ ops, svOpGood op) :
    parseSVRecords (encodeSVOps ops) = some ops := by
  induction ops with
  | nil => rfl
  | cons op rest ih =>
    have hop : svOpGood op := hops op (List.mem_cons_self op rest)
    have hrest : ∀ o ∈ rest, svOpGood o := fun o ho => hops o (List.mem_cons_of_mem _ ho)
    rw [encodeSVOps_cons, parseSVRecords_cons (parseSVRecord_encode op _ hop), ih hrest]
    rfl

theorem parseMVRecords_encode (ops : List MVOp) (hops : ∀ op ∈ ops, mvOpGood op) :
    parseMVRecords (encodeMVOps ops) = some ops := by
  induction ops with
  | nil => rfl
  | cons op rest ih =>
    have hop : mvOpGood op := hops op (List.mem_cons_self op rest)
    have hrest : ∀ o ∈ rest, mvOpGood o := fun o ho => hops o (List.mem_cons_of_mem _ ho)
    rw [encodeMVOps_cons, parseMVRecords_cons (parseMVRecord_encode op _ hop), ih hrest]
    rfl

theorem parseSVGreedy_encode (ops : List SVOp) (tail : List Nat)
    (hops : ∀ op ∈ ops, svOpGood op) (htail : parseSVRecord tail = none) :
    parseSVGreedy (encodeSVOps ops ++ tail) = ops := by
  induction ops with
  | nil =>
    rw [show encodeSVOps [] ++ tail = tail by simp [encodeSVOps]]
    exact parseSVGreedy_none htail
  | cons op rest ih =>
    have hop : svOpGood op := hops op (List.mem_cons_self op rest)
    have hrest : ∀ o ∈ rest, svOpGood o := fun o ho => hops o (List.mem_cons_of_mem _ ho)
    rw [encodeSVOps_cons, List.append_assoc,
      parseSVGreedy_cons (parseSVRecord_encode op _ hop), ih hrest]

theorem parseMVGreedy_encode (ops : List MVOp) (tail : List Nat)
    (hops : ∀ op ∈ ops, mvOpGood op) (htail : parseMVRecord tail = none) :
    parseMVGreedy (encodeMVOps ops ++ tail) = ops := by
  induction ops with
  | nil =>
    rw [show encodeMVOps [] ++ tail = tail by simp [encodeMVOps]]
    exact parseMVGreedy_none htail
  | cons op rest ih =>
    have hop : mvOpGood op := hops op (List.mem_cons_self op rest)
    have hrest : ∀ o ∈ rest, mvOpGood o := fun o ho => hops o (List.mem_cons_of_mem _ ho)
    rw [encodeMVOps_cons, List.append_assoc,
      parseMVGreedy_cons (parseMVRecord_encode op _ hop), ih hrest]

-- ### WriteBatch::Iterate level helpers

theorem writeBatchIterate_fst (rep : List Nat) (h : ¬ rep.length < kHeader) :
    (WriteBatchIterate rep).1 = parseSVGreedy (rep.drop kHeader) := by
  obtain ⟨m1, -, -⟩ := svLoop_spec (rep.drop kHeader)
  simp only [WriteBatchIterate, if_neg h]
  cases hsl : svLoop (rep.drop kHeader) with
  | mk ops st =>
    rw [hsl] at m1
    cases st with
    | ok =>
      by_cases hc : ops.length ≠ WriteBatchCount rep
      · simp only [hsl, if_pos hc]
        exact m1
      · simp only [hsl, if_neg hc]
        exact m1
    | corruption m =>
      simp only [hsl]
      exact m1

theorem writeBatchMVIterate_fst (rep : List Nat) (h : ¬ rep.length < kHeader) :
    (WriteBatchMVIterate rep).1 = parseMVGreedy (rep.drop kHeader) := by
  obtain ⟨m1, -, -⟩ := mvLoop_spec (rep.drop kHeader)
  simp only [WriteBatchMVIterate, if_neg h]
  cases hsl : mvLoop (rep.drop kHeader) with
  | mk ops st =>
    rw [hsl] at m1
    cases st with
    | ok =>
      by_cases hc : ops.length ≠ WriteBatchCount rep
      · simp only [hsl, if_pos hc]
        exact m1
      · simp only [hsl, if_neg hc]
        exact m1
    | corruption m =>
      simp only [hsl]
      exact m1

theorem writeBatchIterate_ok_iff (rep : List Nat) :
    (WriteBatchIterate rep).2 = Status.ok ↔
      (kHeader ≤ rep.length ∧ ∃ ops, parseSVRecords (rep.drop kHeader) = some ops ∧
        ops.length = WriteBatchCount rep) := by
  obtain ⟨m1, m2, m3⟩ := svLoop_spec (rep.drop kHeader)
  by_cases hlen : rep.length < kHeader
  · constructor
    · intro hok
      have hco : (WriteBatchIterate rep).2 =
          Status.corruption ("malformed WriteBatch (too small)") := by
        simp [WriteBatchIterate, if_pos hlen]
      rw [hco] at hok
      exact absurd hok (by simp)
    · rintro ⟨hge, -⟩
      simp only [kHeader] at hge hlen
      omega
  · constructor
    · intro hok
      refine ⟨by omega, (svLoop (rep.drop kHeader)).1, ?_, ?_⟩
      · have hok2 : (svLoop (rep.drop kHeader)).2 = Status.ok := by
          cases hsl : svLoop (rep.drop kHeader) with
          | mk ops st =>
            cases st with
            | ok => rfl
            | corruption m =>
              have hco : (WriteBatchIterate rep).2 = Status.corruption m := by
                simp [WriteBatchIterate, if_neg hlen, hsl]
              rw [hco] at hok
              exact absurd hok (by simp)
        rw [m2 hok2, m1]
      · cases hsl : svLoop (rep.drop kHeader) with
        | mk ops st =>
          cases st with
          | corruption m =>
            have hco : (WriteBatchIterate rep).2 = Status.corruption m := by
              simp [WriteBatchIterate, if_neg hlen, hsl]
            rw [hco] at hok
            exact absurd hok (by simp)
          | ok =>
            by_cases hc : ops.length ≠ WriteBatchCount rep
            · have hco : (WriteBatchIterate rep).2 =
                  Status.corruption ("WriteBatch has wrong count") := by
                simp [WriteBatchIterate, if_neg hlen, hsl, hc]
              rw [hco] at hok
              exact absurd hok (by simp)
            · show ops.length = WriteBatchCount rep
              omega
    · rintro ⟨hge, ops, hrec, hcnt⟩
      obtain ⟨hok2, hgr⟩ := m3 ops hrec
      have hpair : svLoop (rep.drop kHeader) = (ops, Status.ok) := by
        refine Prod.ext ?_ hok2
        rw [m1]
        exact hgr.symm
      have hc : ¬ (ops.length ≠ WriteBatchCount rep) := by omega
      simp [WriteBatchIterate, if_neg hlen, hpair, hc]

theorem writeBatchMVIterate_ok_iff (rep : List Nat) :
    (WriteBatchMVIterate rep).2 = Status.ok ↔
      (kHeader ≤ rep.length ∧ ∃ ops, parseMVRecords (rep.drop kHeader) = some ops ∧
        ops.length = WriteBatchCount rep) := by
  obtain ⟨m1, m2, m3⟩ := mvLoop_spec (rep.drop kHeader)
  by_cases hlen : rep.length < kHeader
  · constructor
    · intro hok
      have hco : (WriteBatchMVIterate rep).2 =
          Status.corruption ("malformed WriteBatchMV (too small)") := by
        simp [WriteBatchMVIterate, if_pos hlen]
      rw [hco] at hok
      exact absurd hok (by simp)
    · rintro ⟨hge, -⟩
      simp only [kHeader] at hge hlen
      omega
  · constructor
    · intro hok
      refine ⟨by omega, (mvLoop (rep.drop kHeader)).1, ?_, ?_⟩
      · have hok2 : (mvLoop (rep.drop kHeader)).2 = Status.ok := by
          cases hsl : mvLoop (rep.drop kHeader) with
          | mk ops st =>
            cases st with
            | ok => rfl
            | corruption m =>
              have hco : (WriteBatchMVIterate rep).2 = Status.corruption m := by
                simp [WriteBatchMVIterate, if_neg hlen, hsl]
              rw [hco] at hok
              exact absurd hok (by simp)
        rw [m2 hok2, m1]
      · cases hsl : mvLoop (rep.drop kHeader) with
        | mk ops st =>
          cases st with
          | corruption m =>
            have hco : (WriteBatchMVIterate rep).2 = Status.corruption m := by
              simp [WriteBatchMVIterate, if_neg hlen, hsl]
            rw [hco] at hok
            exact absurd hok (by simp)
          | ok =>
            by_cases hc : ops.length ≠ WriteBatchCount rep
            · have hco : (WriteBatchMVIterate rep).2 =
                  Status.corruption ("WriteBatchMV has wrong count") := by
                simp [WriteBatchMVIterate, if_neg hlen, hsl, hc]
              rw [hco] at hok
              exact absurd hok (by simp)
            · show ops.length = WriteBatchCount rep
              omega
    · rintro ⟨hge, ops, hrec, hcnt⟩
      obtain ⟨hok2, hgr⟩ := m3 ops hrec
      have hpair : mvLoop (rep.drop kHeader) = (ops, Status.ok) := by
        refine Prod.ext ?_ hok2
        rw [m1]
        exact hgr.symm
      have hc : ¬ (ops.length ≠ WriteBatchCount rep) := by omega
      simp [WriteBatchMVIterate, if_neg hlen, hpair, hc]

-- ### canonical batch buffers

theorem svBatchBytes_drop12 (seq cnt : Nat) (ops : List SVOp) :
    (svBatchBytes seq cnt ops).drop kHeader = encodeSVOps ops := by
  rw [svBatchBytes, show kHeader =
    (EncodeFixed64 seq ++ EncodeFixed32 cnt).length by
      simp [List.length_append, encodeFixed64_length, encodeFixed32_length, kHeader]]
  rw [show EncodeFixed64 seq ++ EncodeFixed32 cnt ++ encodeSVOps ops =
    (EncodeFixed64 seq ++ EncodeFixed32 cnt) ++ encodeSVOps ops from rfl]
  exact List.drop_left _ _

theorem mvBatchBytes_drop12 (seq cnt : Nat) (ops : List MVOp) :
    (mvBatchBytes seq cnt ops).drop kHeader = encodeMVOps ops := by
  rw [mvBatchBytes, show kHeader =
    (EncodeFixed64 seq ++ EncodeFixed32 cnt).length by
      simp [List.length_append, encodeFixed64_length, encodeFixed32_length, kHeader]]
  rw [show EncodeFixed64 seq ++ EncodeFixed32 cnt ++ encodeMVOps ops =
    (EncodeFixed64 seq ++ EncodeFixed32 cnt) ++ encodeMVOps ops from rfl]
  exact List.drop_left _ _

theorem svBatchBytes_count (seq cnt : Nat) (ops : List SVOp) :
    WriteBatchCount (svBatchBytes seq cnt ops) = cnt % 2 ^ 32 := by
  rw [WriteBatchCount, svBatchBytes, List.append_assoc,
    show (8 : Nat) = (EncodeFixed64 seq).length from (encodeFixed64_length seq).symm,
    List.drop_left, decodeFixed32_encode]

theorem mvBatchBytes_count (seq cnt : Nat) (ops : List MVOp) :
    WriteBatchCount (mvBatchBytes seq cnt ops) = cnt % 2 ^ 32 := by
  rw [WriteBatchCount, mvBatchBytes, List.append_assoc,
    show (8 : Nat) = (EncodeFixed64 seq).length from (encodeFixed64_length seq).symm,
    List.drop_left, decodeFixed32_encode]

theorem svBatchBytes_seq (seq cnt : Nat) (ops : List SVOp) :
    WriteBatchSequence (svBatchBytes seq cnt ops) = seq % 2 ^ 64 := by
  rw [WriteBatchSequence, svBatchBytes, List.append_assoc]
  exact decodeFixed64_encode seq _

theorem mvBatchBytes_seq (seq cnt : Nat) (ops : List MVOp) :
    WriteBatchSequence (mvBatchBytes seq cnt ops) = seq % 2 ^ 64 := by
  rw [WriteBatchSequence, mvBatchBytes, List.append_assoc]
  exact decodeFixed64_encode seq _

theorem writeBatchIterate_encode (seq : Nat) (ops : List SVOp)
    (hcnt : ops.length < 2 ^ 32) (hops : ∀ op ∈ ops, svOpGood op) :
    WriteBatchIterate (svBatchBytes seq ops.length ops) = (ops, Status.ok) := by
  obtain ⟨m1, m2, m3⟩ := svLoop_spec (encodeSVOps ops)
  obtain ⟨hok, hgr⟩ := m3 ops (parseSVRecords_encode ops hops)
  have hpair : svLoop (encodeSVOps ops) = (ops, Status.ok) := by
    refine Prod.ext ?_ hok
    rw [m1]
    exact hgr.symm
  have hlen : ¬ (svBatchBytes seq ops.length ops).length < kHeader := by
    simp [svBatchBytes, List.length_append, encodeFixed64_length,
      encodeFixed32_length, kHeader]
    omega
  have hcount : WriteBatchCount (svBatchBytes seq ops.length ops) = ops.length := by
    rw [svBatchBytes_count, Nat.mod_eq_of_lt hcnt]
  simp [WriteBatchIterate, if_neg hlen, svBatchBytes_drop12, hpair, hcount]

theorem writeBatchMVIterate_encode (seq : Nat) (ops : List MVOp)
    (hcnt : ops.length < 2 ^ 32) (hops : ∀ op ∈ ops, mvOpGood op) :
    WriteBatchMVIterate (mvBatchBytes seq ops.length ops) = (ops, Status.ok) := by
  obtain ⟨m1, m2, m3⟩ := mvLoop_spec (encodeMVOps ops)
  obtain ⟨hok, hgr⟩ := m3 ops (parseMVRecords_encode ops hops)
  have hpair : mvLoop (encodeMVOps ops) = (ops, Status.ok) := by
    refine Prod.ext ?_ hok
    rw [m1]
    exact hgr.symm
  have hlen : ¬ (mvBatchBytes seq ops.length ops).length < kHeader := by
    simp [mvBatchBytes, List.length_append, encodeFixed64_length,
      encodeFixed32_length, kHeader]
    omega
  have hcount : WriteBatchCount (mvBatchBytes seq ops.length ops) = ops.length := by
    rw [mvBatchBytes_count, Nat.mod_eq_of_lt hcnt]
  simp [WriteBatchMVIterate, if_neg hlen, mvBatchBytes_drop12, hpair, hcount]

-- ### the memtable inserter

theorem memTableInserterRun_length (ops : List SVOp) : ∀ s,
    (MemTableInserterRun s ops).length = ops.length := by
  induction ops with
  | nil => intro s; rfl
  | cons o rest ih =>
    intro s
    cases o <;> simp [MemTableInserterRun, ih]

theorem memTableMVInserterRun_length (ops : List MVOp) : ∀ s,
    (MemTableMVInserterRun s ops).length = ops.length := by
  induction ops with
  | nil => intro s; rfl
  | cons o rest ih =>
    intro s
    cases o <;> simp [MemTableMVInserterRun, ih]

theorem memTableInserterRun_get : ∀ (ops : List SVOp) (s : Nat),
    s + ops.length ≤ 2 ^ 64 →
    ∀ (i : Nat) (op : SVOp), ops[i]? = some op →
    (MemTableInserterRun s ops)[i]? = some (svEntry (s + i) op) := by
  intro ops
  induction ops with
  | nil =>
    intro s hs i op hi
    simp at hi
  | cons o rest ih =>
    intro s hs i op hi
    simp only [List.length_cons] at hs
    cases i with
    | zero =>
      simp only [List.getElem?_cons_zero, Option.some.injEq] at hi
      subst hi
      cases o <;> simp [MemTableInserterRun, svEntry]
    | succ j =>
      simp only [List.getElem?_cons_succ] at hi
      have hj : j < rest.length := by
        by_contra hc
        have hnone : rest[j]? = none := List.getElem?_eq_none (by omega)
        rw [hnone] at hi
        exact absurd hi (by simp)
      have hs1 : s + 1 < 2 ^ 64 := by omega
      have hmod : (s + 1) % 2 ^ 64 = s + 1 := Nat.mod_eq_of_lt hs1
      have hrec := ih ((s + 1) % 2 ^ 64) (by rw [hmod]; omega) j op hi
      have harg : (s + 1) % 2 ^ 64 + j = s + (j + 1) := by rw [hmod]; omega
      rw [harg] at hrec
      cases o <;> simpa [MemTableInserterRun] using hrec

theorem memTableMVInserterRun_get : ∀ (ops : List MVOp) (s : Nat),
    s + ops.length ≤ 2 ^ 64 →
    ∀ (i : Nat) (op : MVOp), ops[i]? = some op →
    (MemTableMVInserterRun s ops)[i]? = some (mvEntry (s + i) op) := by
  intro ops
  induction ops with
  | nil =>
    intro s hs i op hi
    simp at hi
  | cons o rest ih =>
    intro s hs i op hi
    simp only [List.length_cons] at hs
    cases i with
    | zero =>
      simp only [List.getElem?_cons_zero, Option.some.injEq] at hi
      subst hi
      cases o <;> simp [MemTableMVInserterRun, mvEntry]
    | succ j =>
      simp only [List.getElem?_cons_succ] at hi
      have hj : j < rest.length := by
        by_contra hc
        have hnone : rest[j]? = none := List.getElem?_eq_none (by omega)
        rw [hnone] at hi
        exact absurd hi (by simp)
      have hs1 : s + 1 < 2 ^ 64 := by omega
      have hmod : (s + 1) % 2 ^ 64 = s + 1 := Nat.mod_eq_of_lt hs1
      have hrec := ih ((s + 1) % 2 ^ 64) (by rw [hmod]; omega) j op hi
      have harg : (s + 1) % 2 ^ 64 + j = s + (j + 1) := by rw [hmod]; omega
      rw [harg] at hrec
      cases o <;> simpa [MemTableMVInserterRun] using hrec

-- ### the claims about write batches

/-- C2: Iterate (SV and MV) returns OK exactly when the buffer is at
least 12 bytes, the bytes after the header parse as a sequence of
well-formed records (recognized tag, length prefixes inside the buffer,
the MV valid time present), and the number of parsed records equals the
fixed32 count at offset 8; in every other case the result is a
Corruption status (the only error the Status type carries). -/
theorem iterate_ok_iff_wellformed :
    (∀ rep : List Nat, (WriteBatchIterate rep).2 = Status.ok ↔
      (kHeader ≤ rep.length ∧ ∃ ops, parseSVRecords (rep.drop kHeader) = some ops ∧
        ops.length = WriteBatchCount rep)) ∧
    (∀ rep : List Nat, (WriteBatchMVIterate rep).2 = Status.ok ↔
      (kHeader ≤ rep.length ∧ ∃ ops, parseMVRecords (rep.drop kHeader) = some ops ∧
        ops.length = WriteBatchCount rep)) :=
  ⟨writeBatchIterate_ok_iff, writeBatchMVIterate_ok_iff⟩

/-- C10: a freshly constructed or cleared write batch (SV or MV) has
ApproximateSize 12, header count 0, header sequence 0, and iterating it
returns OK having dispatched no handler callbacks. -/
theorem clearedBatch_defaults :
    ApproximateSize WriteBatchClear = 12 ∧
    WriteBatchCount WriteBatchClear = 0 ∧
    WriteBatchSequence WriteBatchClear = 0 ∧
    WriteBatchIterate WriteBatchClear = ([], Status.ok) ∧
    WriteBatchMVIterate WriteBatchClear = ([], Status.ok) :=
  ⟨by decide, by decide, by decide, by decide, by decide⟩

/-- C8: when Iterate (SV or MV) returns a Corruption error on a buffer
with a full header, the records it has dispatched to the handler are
exactly the well-formed records preceding the first malformed point, in
insertion order (handler effects are not rolled back). -/
theorem iterate_error_prefix_dispatched :
    (∀ rep : List Nat, kHeader ≤ rep.length → ∀ m,
      (WriteBatchIterate rep).2 = Status.corruption m →
      (WriteBatchIterate rep).1 = parseSVGreedy (rep.drop kHeader)) ∧
    (∀ rep : List Nat, kHeader ≤ rep.length → ∀ m,
      (WriteBatchMVIterate rep).2 = Status.corruption m →
      (WriteBatchMVIterate rep).1 = parseMVGreedy (rep.drop kHeader)) :=
  ⟨fun rep hlen _ _ => writeBatchIterate_fst rep (by omega),
   fun rep hlen _ _ => writeBatchMVIterate_fst rep (by omega)⟩

/-- Witness for C8 at concrete corrupt batches (one good Delete record
followed by the unknown tag byte 0x7f, header count 2). -/
theorem iterate_error_prefix_dispatched_witness :
    kHeader ≤ (svBatchBytes 0 2 (SVOp.del [97] :: []) ++ [127]).length ∧
    (WriteBatchIterate (svBatchBytes 0 2 (SVOp.del [97] :: []) ++ [127])).2 =
      Status.corruption ("unknown WriteBatch tag") ∧
    (WriteBatchIterate (svBatchBytes 0 2 (SVOp.del [97] :: []) ++ [127])).1 =
      parseSVGreedy ((svBatchBytes 0 2 (SVOp.del [97] :: []) ++ [127]).drop kHeader) ∧
    (WriteBatchMVIterate (mvBatchBytes 0 2 (MVOp.del [97] 5 :: []) ++ [127])).2 =
      Status.corruption ("unknown WriteBatchMV tag") ∧
    (WriteBatchMVIterate (mvBatchBytes 0 2 (MVOp.del [97] 5 :: []) ++ [127])).1 =
      parseMVGreedy ((mvBatchBytes 0 2 (MVOp.del [97] 5 :: []) ++ [127]).drop kHeader) :=
  ⟨by decide, by decide,
   iterate_error_prefix_dispatched.1 _ (by decide) ("unknown WriteBatch tag") (by decide),
   by decide,
   iterate_error_prefix_dispatched.2 _ (by decide) ("unknown WriteBatchMV tag") (by decide)⟩

/-- C3: replaying a well-formed batch into a memtable performs exactly
count memtable Add calls (AddMV in MV mode) in record order, the i-th
carrying sequence number seq + i, tag kTypeValue with the record's key
and value for a Put, and tag kTypeDeletion with the key and an empty
value for a Delete. -/
theorem insertInto_replays_batch :
    (∀ (seq : Nat) (ops : List SVOp),
      seq + ops.length ≤ 2 ^ 64 → seq < 2 ^ 64 → ops.length < 2 ^ 32 →
      (∀ op ∈ ops, svOpGood op) →
      (InsertInto (svBatchBytes seq ops.length ops)).2 = Status.ok ∧
      ((InsertInto (svBatchBytes seq ops.length ops)).1).length = ops.length ∧
      (∀ (i : Nat) (op : SVOp), ops[i]? = some op →
        ((InsertInto (svBatchBytes seq ops.length ops)).1)[i]? =
          some (svEntry (seq + i) op))) ∧
    (∀ (seq : Nat) (ops : List MVOp),
      seq + ops.length ≤ 2 ^ 64 → seq < 2 ^ 64 → ops.length < 2 ^ 32 →
      (∀ op ∈ ops, mvOpGood op) →
      (InsertIntoMV (mvBatchBytes seq ops.length ops)).2 = Status.ok ∧
      ((InsertIntoMV (mvBatchBytes seq ops.length ops)).1).length = ops.length ∧
      (∀ (i : Nat) (op : MVOp), ops[i]? = some op →
        ((InsertIntoMV (mvBatchBytes seq ops.length ops)).1)[i]? =
          some (mvEntry (seq + i) op))) := by
  constructor
  · intro seq ops hsum hseq hcnt hops
    have hiter := writeBatchIterate_encode seq ops hcnt hops
    have hseqd : WriteBatchSequence (svBatchBytes seq ops.length ops) = seq := by
      rw [svBatchBytes_seq, Nat.mod_eq_of_lt hseq]
    refine ⟨?_, ?_, ?_⟩
    · simp [InsertInto, hiter]
    · simp [InsertInto, hiter, hseqd, memTableInserterRun_length]
    · intro i op hi
      simp only [InsertInto, hiter, hseqd]
      exact memTableInserterRun_get ops seq hsum i op hi
  · intro seq ops hsum hseq hcnt hops
    have hiter := writeBatchMVIterate_encode seq ops hcnt hops
    have hseqd : WriteBatchSequence (mvBatchBytes seq ops.length ops) = seq := by
      rw [mvBatchBytes_seq, Nat.mod_eq_of_lt hseq]
    refine ⟨?_, ?_, ?_⟩
    · simp [InsertIntoMV, hiter]
    · simp [InsertIntoMV, hiter, hseqd, memTableMVInserterRun_length]
    · intro i op hi
      simp only [InsertIntoMV, hiter, hseqd]
      exact memTableMVInserterRun_get ops seq hsum i op hi

/-- Witness for C3: the mixed SV batch seq=7, put(a,1); delete(b), and
the MV batch seq=500, put(k, vt=42, v). -/
theorem insertInto_replays_batch_witness :
    (InsertInto (svBatchBytes 7 2 (SVOp.put [97] [49] :: SVOp.del [98] :: []))).2 =
      Status.ok ∧
    ((InsertInto (svBatchBytes 7 2 (SVOp.put [97] [49] :: SVOp.del [98] :: []))).1)[0]? =
      some (svEntry (7 + 0) (SVOp.put [97] [49])) ∧
    ((InsertInto (svBatchBytes 7 2 (SVOp.put [97] [49] :: SVOp.del [98] :: []))).1)[1]? =
      some (svEntry (7 + 1) (SVOp.del [98])) ∧
    (InsertIntoMV (mvBatchBytes 500 1 (MVOp.put [107] 42 [118] :: []))).2 = Status.ok ∧
    ((InsertIntoMV (mvBatchBytes 500 1 (MVOp.put [107] 42 [118] :: []))).1)[0]? =
      some (mvEntry (500 + 0) (MVOp.put [107] 42 [118])) :=
  ⟨(insertInto_replays_batch.1 7 (SVOp.put [97] [49] :: SVOp.del [98] :: [])
      (by decide) (by decide) (by decide) (by decide)).1,
   (insertInto_replays_batch.1 7 (SVOp.put [97] [49] :: SVOp.del [98] :: [])
      (by decide) (by decide) (by decide) (by decide)).2.2 0 _ (by decide),
   (insertInto_replays_batch.1 7 (SVOp.put [97] [49] :: SVOp.del [98] :: [])
      (by decide) (by decide) (by decide) (by decide)).2.2 1 _ (by decide),
   (insertInto_replays_batch.2 500 (MVOp.put [107] 42 [118] :: [])
      (by decide) (by decide) (by decide) (by decide)).1,
   (insertInto_replays_batch.2 500 (MVOp.put [107] 42 [118] :: [])
      (by decide) (by decide) (by decide) (by decide)).2.2 0 _ (by decide)⟩

end LevelDB
